import Mathlib

/-!
Verification of the StockPortfolioManager harvest-plan engine.

This file gives a shallow embedding of the two core source files,
`src/experiments/HarvesterExperiment.py` (pure ladder / volatility math) and
`src/experiments/HarvesterPlanStore.py` (the SQLite-backed plan store and
controller), and proves the stated correctness and invariant properties.

Real-number arithmetic of the Python code is modelled over `ℚ`.  The code's
calls into `math.log`, `math.sqrt` and real exponentiation `x ** (1/N)` are
modelled by an abstract oracle `MathFns`: every definition is parameterised by
the oracle and every theorem holds for an arbitrary oracle, so nothing proved
here depends on properties of the transcendental functions themselves.
-/

namespace Harvester

/-- Oracle bundling the transcendental functions used by the Python source
(`math.log`, `math.sqrt`, and `x ** (1.0 / N)`). -/
structure MathFns where
  log : ℚ → ℚ
  sqrt : ℚ → ℚ
  powInv : ℚ → ℕ → ℚ

/-- List of consecutive price pairs `(prices[i-1], prices[i])`. -/
def pricePairs (prices : List ℚ) : List (ℚ × ℚ) :=
  prices.zip prices.tail

/-- Embedding of the log-return loop of `compute_historical_volatility`:
pairs with a non-positive member are skipped, the rest contribute
`log(p_curr / p_prev)`. -/
def logReturns (M : MathFns) (prices : List ℚ) : List ℚ :=
  (pricePairs prices).filterMap fun pq =>
    if pq.1 ≤ 0 ∨ pq.2 ≤ 0 then none else some (M.log (pq.2 / pq.1))

/-- Sample variance with `n - 1` denominator, as in the source. -/
def sampleVar (rs : List ℚ) : ℚ :=
  ((rs.map fun r => (r - rs.sum / rs.length) ^ 2).sum) / (rs.length - 1)

/-- Embedding of `compute_historical_volatility` from
`src/experiments/HarvesterExperiment.py`.  Returns
`(daily_vol, annual_vol)` or `none` when fewer than two usable log
returns exist. -/
def compute_historical_volatility (M : MathFns) (prices : List ℚ) :
    Option (ℚ × ℚ) :=
  if prices.length < 2 then none
  else if (logReturns M prices).length < 2 then none
  else
    some (M.sqrt (sampleVar (logReturns M prices)),
      M.sqrt (sampleVar (logReturns M prices)) * M.sqrt 252)

/-- Embedding of `suggest_H_from_vol`:
`H = max(min_H, min(max_H, alpha * annual_vol))`. -/
def suggest_H_from_vol (M : MathFns) (prices : List ℚ)
    (alpha min_H max_H : ℚ) : Option (ℚ × ℚ) :=
  match compute_historical_volatility M prices with
  | none => none
  | some (_, annual_vol) =>
      some (max min_H (min max_H (alpha * annual_vol)), annual_vol)

/-- One rung of the theoretical price-target ladder built by
`compute_price_targets`. -/
structure LadderRung where
  harvest : ℕ
  price_target : ℚ
  shares_before : ℤ
  shares_sold : ℤ
  shares_after : ℤ
deriving Repr, DecidableEq

/-- Loop body of `compute_price_targets`: `fuel` counts the remaining
iterations of `for j in range(1, n_harvests + 1)`, `j` the current
1-based harvest number, `s` the running share count. -/
def computeTargetsAux (V0 H : ℚ) : ℕ → ℕ → ℤ → List LadderRung
  | 0, _, _ => []
  | fuel + 1, j, s =>
    if s ≤ 1 then []
    else
      let P_target := (1 + H) * V0 / s
      let min_shares_after := ⌈V0 / P_target⌉
      if min_shares_after > s - 1 then []
      else
        { harvest := j
          price_target := P_target
          shares_before := s
          shares_sold := s - min_shares_after
          shares_after := min_shares_after } ::
        computeTargetsAux V0 H fuel (j + 1) min_shares_after

/-- Embedding of `compute_price_targets` from
`src/experiments/HarvesterExperiment.py`. -/
def compute_price_targets (P0 H : ℚ) (s0 : ℤ) (n_harvests : ℕ) :
    List LadderRung :=
  computeTargetsAux (s0 * P0) H n_harvests 1 s0

/-- A ladder rung as enriched by `design_forward_ladder_from_history`. -/
structure ForwardRung where
  base : LadderRung
  expected_days_from_now : Option ℚ
  gross_harvest : ℚ
  cumulative_harvest : ℚ
  remaining_value : ℚ
  total_wealth : ℚ
  total_return_vs_initial : ℚ
deriving Repr, DecidableEq

/-- The record returned by `design_forward_ladder_from_history`. -/
structure ForwardPlan where
  s0 : ℤ
  P_current : ℚ
  r_daily : ℚ
  H : ℚ
  annual_vol : Option ℚ
  V0 : ℚ
  n_iterations : ℕ
  ladder : List ForwardRung
deriving Repr, DecidableEq

/-- Enrichment loop of `design_forward_ladder_from_history`: attaches
expected days and the projected cash-flow columns to each rung, threading
the cumulative harvest. -/
def enrichLadder (M : MathFns) (P_current r_daily V0 : ℚ) :
    List LadderRung → ℚ → List ForwardRung
  | [], _ => []
  | rung :: rest, cum =>
    let days :=
      if 0 < r_daily ∧ P_current < rung.price_target then
        some (M.log (rung.price_target / P_current) / M.log (1 + r_daily))
      else none
    let gross := rung.shares_sold * rung.price_target
    let cum' := cum + gross
    let remaining := rung.shares_after * rung.price_target
    let wealth := cum' + remaining
    { base := rung
      expected_days_from_now := days
      gross_harvest := gross
      cumulative_harvest := cum'
      remaining_value := remaining
      total_wealth := wealth
      total_return_vs_initial := wealth / V0 - 1 } ::
    enrichLadder M P_current r_daily V0 rest cum'

/-- The pair `(H, annual_vol)` as selected by
`design_forward_ladder_from_history`: dynamic derivation when `H` is not
supplied, otherwise the caller's `H` verbatim with the volatility still
computed for reporting. -/
def chooseH (M : MathFns) (prices : List ℚ) (Hopt : Option ℚ)
    (alpha min_H max_H : ℚ) : Option (ℚ × Option ℚ) :=
  match Hopt with
  | none =>
      match suggest_H_from_vol M prices alpha min_H max_H with
      | none => none
      | some (H, av) => some (H, some av)
  | some H => some (H, (compute_historical_volatility M prices).map Prod.snd)

/-- The `s0` scan of `design_forward_ladder_from_history`: the first
`s0 ∈ [1, max_s0]` whose ladder completes `n_iterations` rungs. -/
def findFeasibleS0 (P_current H : ℚ) (n_iterations max_s0 : ℕ) : Option ℕ :=
  (List.range' 1 max_s0).find? fun s0 =>
    (compute_price_targets P_current H s0 n_iterations).length = n_iterations

/-- The inferred daily growth rate of
`design_forward_ladder_from_history`:
`r_daily = (P_current / P_start) ** (1/N) - 1` over `N = len - 1`
intervals. -/
def inferRDaily (M : MathFns) (prices : List ℚ) : ℚ :=
  M.powInv (prices.getLastD 0 / prices.headI) (prices.length - 1) - 1

/-- The plan record assembled by `design_forward_ladder_from_history`
for a feasible `s0`. -/
def mkForwardPlan (M : MathFns) (prices : List ℚ) (H : ℚ)
    (annual_vol : Option ℚ) (n_iterations s0 : ℕ) : ForwardPlan :=
  { s0 := (s0 : ℤ)
    P_current := prices.getLastD 0
    r_daily := inferRDaily M prices
    H := H
    annual_vol := annual_vol
    V0 := (s0 : ℚ) * prices.getLastD 0
    n_iterations := n_iterations
    ladder :=
      enrichLadder M (prices.getLastD 0) (inferRDaily M prices)
        ((s0 : ℚ) * prices.getLastD 0)
        (compute_price_targets (prices.getLastD 0) H s0 n_iterations) 0 }

/-- Embedding of `design_forward_ladder_from_history` from
`src/experiments/HarvesterExperiment.py`. -/
def design_forward_ladder_from_history (M : MathFns) (prices : List ℚ)
    (Hopt : Option ℚ) (n_iterations max_s0 : ℕ)
    (alpha min_H max_H : ℚ) : Option ForwardPlan :=
  if prices.length < 2 then none
  else if prices.headI ≤ 0 ∨ prices.getLastD 0 ≤ 0 then none
  else
    match chooseH M prices Hopt alpha min_H max_H with
    | none => none
    | some (H, annual_vol) =>
        match findFeasibleS0 (prices.getLastD 0) H n_iterations max_s0 with
        | none => none
        | some s0 => some (mkForwardPlan M prices H annual_vol n_iterations s0)

/-! ## Plan store model

A shallow embedding of the SQLite state of
`src/experiments/HarvesterPlanStore.py`: the `plan_instances`, `plan_rungs`
and `alerts` tables as lists of rows, and the store / controller operations
as pure state transformers.  Timestamps are modelled as integers, ticker
strings by the `symbol_id` that the SQL resolves them to. -/

/-- Status column of `plan_instances`. -/
inductive InstStatus where
  | ACTIVE
  | SUPERSEDED
deriving Repr, DecidableEq

/-- Status column of `plan_rungs`. -/
inductive RungStatus where
  | PENDING
  | TRIGGERED
  | EXECUTED
deriving Repr, DecidableEq

/-- Status column of `alerts`. -/
inductive AlertStatus where
  | ACTIVE
  | FIRED
  | DISABLED
deriving Repr, DecidableEq

/-- A row of the `plan_instances` table (columns the claims touch). -/
structure PlanInstanceRow where
  instance_id : ℕ
  symbol_id : ℕ
  status : InstStatus
  created_at : ℤ
  price_asof : ℚ
  shares_initial : ℤ
  v0_floor : ℚ
  h_threshold : ℚ
  n_iterations : ℕ
  supersedes_instance_id : Option ℕ
deriving Repr, DecidableEq

/-- A row of the `plan_rungs` table (columns the claims touch). -/
structure PlanRungRow where
  rung_id : ℕ
  instance_id : ℕ
  rung_index : ℕ
  target_price : ℚ
  shares_before : ℤ
  shares_sold_planned : ℤ
  shares_after_planned : ℤ
  status : RungStatus
  triggered_at : Option ℤ
  trigger_price : Option ℚ
  executed_at : Option ℤ
  executed_price : Option ℚ
  shares_sold_actual : Option ℤ
  tax_paid_actual : Option ℚ
  net_harvest_actual : Option ℚ
  notes : Option String
deriving Repr, DecidableEq

/-- A row of the `alerts` table (columns the claims touch). -/
structure AlertRow where
  alert_id : ℕ
  rung_id : ℕ
  symbol_id : ℕ
  instance_id : ℕ
  threshold_price : ℚ
  status : AlertStatus
  created_at : ℤ
  last_checked_at : Option ℤ
  fired_at : Option ℤ
  fired_price : Option ℚ
deriving Repr, DecidableEq

/-- The mutable store: the three plan tables plus the rowid counters used
for fresh primary keys. -/
structure DB where
  instances : List PlanInstanceRow
  rungs : List PlanRungRow
  alerts : List AlertRow
  next_instance_id : ℕ
  next_rung_id : ℕ
  next_alert_id : ℕ
deriving Repr, DecidableEq

/-- Does the store hold an ACTIVE `plan_instances` row with this id?
(the `pi.status = 'ACTIVE'` half of the join in
`SQL_GET_NEXT_PENDING_RUNG`). -/
def instanceActive (db : DB) (iid : ℕ) : Bool :=
  db.instances.any fun i => i.instance_id = iid ∧ i.status = InstStatus.ACTIVE

/-- First row with minimal `rung_index` (the `ORDER BY rung_index ASC
LIMIT 1`; ties, excluded by the schema's `UNIQUE(instance_id,
rung_index)`, go to the earlier row). -/
def minByRungIndex : List PlanRungRow → Option PlanRungRow
  | [] => none
  | r :: rest =>
      match minByRungIndex rest with
      | none => some r
      | some b => if r.rung_index ≤ b.rung_index then some r else some b

/-- Embedding of `SQL_GET_NEXT_PENDING_RUNG`: the lowest-indexed PENDING
rung of an ACTIVE instance, together with the instance's `symbol_id`
selected by the join. -/
def getNextPendingRung (db : DB) (iid : ℕ) : Option (PlanRungRow × ℕ) :=
  if instanceActive db iid then
    match
      minByRungIndex
        (db.rungs.filter fun r =>
          r.instance_id = iid ∧ r.status = RungStatus.PENDING)
    with
    | none => none
    | some r =>
        match db.instances.find? fun i => i.instance_id = iid with
        | none => none
        | some i => some (r, i.symbol_id)
  else none

/-- Embedding of `SQL_UPSERT_ALERT_FOR_RUNG`: insert an ACTIVE alert for
the rung, or on conflict over `rung_id` update its threshold price and
re-activate it. -/
def upsertAlertForRung (db : DB) (rung_id symbol_id iid : ℕ)
    (threshold : ℚ) (now : ℤ) : DB :=
  if db.alerts.any fun a => a.rung_id = rung_id then
    { db with
      alerts :=
        db.alerts.map fun a =>
          if a.rung_id = rung_id then
            { a with threshold_price := threshold,
                     status := AlertStatus.ACTIVE }
          else a }
  else
    { db with
      alerts :=
        db.alerts ++
          [{ alert_id := db.next_alert_id
             rung_id := rung_id
             symbol_id := symbol_id
             instance_id := iid
             threshold_price := threshold
             status := AlertStatus.ACTIVE
             created_at := now
             last_checked_at := none
             fired_at := none
             fired_price := none }],
      next_alert_id := db.next_alert_id + 1 }

/-- Embedding of `SQL_DISABLE_OTHER_ALERTS_FOR_INSTANCE`. -/
def disableOtherAlerts (db : DB) (iid rung_id : ℕ) : DB :=
  { db with
    alerts :=
      db.alerts.map fun a =>
        if a.instance_id = iid ∧ a.status = AlertStatus.ACTIVE ∧
            a.rung_id ≠ rung_id then
          { a with status := AlertStatus.DISABLED }
        else a }

/-- Embedding of `HarvesterPlanDB._ensure_next_rung_alert`. -/
def ensure_next_rung_alert (db : DB) (iid : ℕ) (now : ℤ) : DB :=
  match getNextPendingRung db iid with
  | none => db
  | some (rung, symbol_id) =>
      disableOtherAlerts
        (upsertAlertForRung db rung.rung_id symbol_id iid
          rung.target_price now)
        iid rung.rung_id

/-- Row-level effect of `SQL_MARK_RUNG_EXECUTED`: sets the executed
columns when the row matches `rung_id` and its status is TRIGGERED or
PENDING, else leaves the row alone. -/
def execUpdate (rung_id : ℕ) (price : ℚ) (shares_sold : ℤ)
    (tax_paid : ℚ) (ts : ℤ) (r : PlanRungRow) : PlanRungRow :=
  if r.rung_id = rung_id ∧
      (r.status = RungStatus.TRIGGERED ∨ r.status = RungStatus.PENDING) then
    { r with
      status := RungStatus.EXECUTED
      executed_at := some ts
      executed_price := some price
      shares_sold_actual := some shares_sold
      tax_paid_actual := some tax_paid
      net_harvest_actual := some (price * shares_sold - tax_paid) }
  else r

/-- Embedding of `SQL_MARK_RUNG_EXECUTED`: sets the executed columns on
the rung when its status is TRIGGERED or PENDING. -/
def markRungExecuted (db : DB) (rung_id : ℕ) (price : ℚ)
    (shares_sold : ℤ) (tax_paid : ℚ) (ts : ℤ) : DB :=
  { db with
    rungs := db.rungs.map (execUpdate rung_id price shares_sold tax_paid ts) }

/-- Embedding of `HarvesterController.record_execution`: mark the rung
executed (guarded by status), optionally set notes, then refresh the
next-pending alert for the rung's instance. -/
def record_execution (db : DB) (rung_id : ℕ) (executed_price : ℚ)
    (shares_sold : ℤ) (tax_paid : ℚ) (ts : ℤ)
    (notes : Option String) : DB :=
  let db1 := markRungExecuted db rung_id executed_price shares_sold
    tax_paid ts
  let db2 :=
    match notes with
    | none => db1
    | some s =>
        { db1 with
          rungs :=
            db1.rungs.map fun (r : PlanRungRow) =>
              if r.rung_id = rung_id then { r with notes := some s } else r }
  match db2.rungs.find? fun r => r.rung_id = rung_id with
  | none => db2
  | some r => ensure_next_rung_alert db2 r.instance_id ts

/-- The WHERE clause assembled by `purge_superseded_plans`: status
SUPERSEDED, optionally restricted to one symbol and to instances created
at or before `now - older_than_days` days. -/
def purgeMatch (symbol : Option ℕ) (older_than_days : Option ℤ) (now : ℤ)
    (i : PlanInstanceRow) : Bool :=
  (decide (i.status = InstStatus.SUPERSEDED)) &&
    (symbol.all fun sid => decide (i.symbol_id = sid)) &&
    (older_than_days.all fun d => decide (i.created_at ≤ now - d))

/-- The `instance_id`s selected for deletion by
`purge_superseded_plans`. -/
def purgeRemovedIds (db : DB) (symbol : Option ℕ)
    (older_than_days : Option ℤ) (now : ℤ) : List ℕ :=
  (db.instances.filter (purgeMatch symbol older_than_days now)).map
    PlanInstanceRow.instance_id

/-- The `rung_id`s cascade-deleted with those instances. -/
def purgeRemovedRungIds (db : DB) (symbol : Option ℕ)
    (older_than_days : Option ℤ) (now : ℤ) : List ℕ :=
  (db.rungs.filter fun r =>
    r.instance_id ∈ purgeRemovedIds db symbol older_than_days now).map
    PlanRungRow.rung_id

/-- Effect of the non-dry `DELETE FROM plan_instances WHERE ...` with its
`ON DELETE CASCADE` foreign keys on rungs and alerts. -/
def purgeApply (db : DB) (symbol : Option ℕ) (older_than_days : Option ℤ)
    (now : ℤ) : DB :=
  { db with
    instances :=
      db.instances.filter fun i => ¬ purgeMatch symbol older_than_days now i
    rungs :=
      db.rungs.filter fun r =>
        r.instance_id ∉ purgeRemovedIds db symbol older_than_days now
    alerts :=
      db.alerts.filter fun a =>
        a.instance_id ∉ purgeRemovedIds db symbol older_than_days now ∧
        a.rung_id ∉ purgeRemovedRungIds db symbol older_than_days now }

/-- Embedding of `HarvesterPlanDB.purge_superseded_plans`: returns the
matched count and the resulting store.  A dry run (or an empty match)
returns before deleting; otherwise the matching instances are deleted and
the `ON DELETE CASCADE` foreign keys remove their rungs and alerts. -/
def purge_superseded_plans (db : DB) (symbol : Option ℕ)
    (older_than_days : Option ℤ) (now : ℤ) (dry_run : Bool) : ℕ × DB :=
  if dry_run ∨
      (db.instances.filter (purgeMatch symbol older_than_days now)).length
        = 0 then
    ((db.instances.filter (purgeMatch symbol older_than_days now)).length,
      db)
  else
    ((db.instances.filter (purgeMatch symbol older_than_days now)).length,
      purgeApply db symbol older_than_days now)

/-- The `ORDER BY created_at DESC LIMIT 1` pick of the previous ACTIVE
instance for a symbol in `build_plan`: first row with maximal
`created_at` among the matches. -/
def pickPrevActive (db : DB) (sid : ℕ) : Option PlanInstanceRow :=
  (db.instances.filter fun i =>
      i.symbol_id = sid ∧ i.status = InstStatus.ACTIVE).foldl
    (fun acc i =>
      match acc with
      | none => some i
      | some b => if b.created_at < i.created_at then some i else acc)
    none

/-- Rows inserted into `plan_rungs` by `build_plan` for a forward plan's
ladder, with fresh consecutive rowids starting at `first_rung_id`. -/
def rungRowsOfLadder (iid first_rung_id : ℕ) (ladder : List ForwardRung) :
    List PlanRungRow :=
  ladder.enum.map fun rk =>
    { rung_id := first_rung_id + rk.1
      instance_id := iid
      rung_index := rk.2.base.harvest
      target_price := rk.2.base.price_target
      shares_before := rk.2.base.shares_before
      shares_sold_planned := rk.2.base.shares_sold
      shares_after_planned := rk.2.base.shares_after
      status := RungStatus.PENDING
      triggered_at := none
      trigger_price := none
      executed_at := none
      executed_price := none
      shares_sold_actual := none
      tax_paid_actual := none
      net_harvest_actual := none
      notes := none }

/-- The `plan_instances` rows after the supersession `UPDATE` of
`build_plan` step 6. -/
def supersededInstances (db : DB) (sid : ℕ) : List PlanInstanceRow :=
  match pickPrevActive db sid with
  | none => db.instances
  | some p =>
      db.instances.map fun i =>
        if i.instance_id = p.instance_id then
          { i with status := InstStatus.SUPERSEDED }
        else i

/-- The new `plan_instances` row inserted by `build_plan` step 6. -/
def newPlanRow (db : DB) (sid : ℕ) (plan : ForwardPlan) (price_asof : ℚ)
    (now : ℤ) : PlanInstanceRow :=
  { instance_id := db.next_instance_id
    symbol_id := sid
    status := InstStatus.ACTIVE
    created_at := now
    price_asof := price_asof
    shares_initial := plan.s0
    v0_floor := plan.V0
    h_threshold := plan.H
    n_iterations := plan.n_iterations
    supersedes_instance_id :=
      (pickPrevActive db sid).map PlanInstanceRow.instance_id }

/-- The store state at the end of the step-6 transaction of
`build_plan`: previous ACTIVE instance superseded, new ACTIVE instance
and its PENDING rungs inserted. -/
def insertPlanBase (db : DB) (sid : ℕ) (plan : ForwardPlan)
    (price_asof : ℚ) (now : ℤ) : DB :=
  { db with
    instances :=
      supersededInstances db sid ++ [newPlanRow db sid plan price_asof now]
    rungs :=
      db.rungs ++
        rungRowsOfLadder db.next_instance_id db.next_rung_id plan.ladder
    next_instance_id := db.next_instance_id + 1
    next_rung_id := db.next_rung_id + plan.ladder.length }

/-- Steps 6 and 7 of `HarvesterPlanDB.build_plan` once the forward plan
is in hand: supersede the previous ACTIVE instance for the symbol, insert
the new ACTIVE instance and its rungs, then create/refresh the alert for
the first pending rung.  Returns the new store and the new
`instance_id`. -/
def insertPlanInstance (db : DB) (sid : ℕ) (plan : ForwardPlan)
    (price_asof : ℚ) (now : ℤ) : DB × ℕ :=
  (ensure_next_rung_alert (insertPlanBase db sid plan price_asof now)
      db.next_instance_id now,
    db.next_instance_id)

/-- One row of the stored daily-bar window `build_plan` reads back
(`adj_close` and `close` of `price_bars_daily`), in chronological
order. -/
structure BarRow where
  adj_close : ℚ
  close : ℚ
deriving Repr, DecidableEq

/-- Embedding of `HarvesterPlanDB.build_plan` from the point where the
stored price window has been read back: the ladder is computed from the
window's `adj_close` series, `price_asof` is the window's last unadjusted
`close`, and failure (a raised `RuntimeError`) is `none` with no rows
inserted. -/
def build_plan (M : MathFns) (db : DB) (sid : ℕ) (window : List BarRow)
    (n_iterations max_s0 : ℕ) (alpha min_H max_H : ℚ) (now : ℤ) :
    Option (DB × ℕ) :=
  if window.length < 2 then none
  else
    match
      design_forward_ladder_from_history M (window.map BarRow.adj_close)
        none n_iterations max_s0 alpha min_H max_H
    with
    | none => none
    | some plan =>
        some (insertPlanInstance db sid plan
          ((window.map BarRow.close).getLastD 0) now)

/-- An entry of the list returned by `symbols_at_harvest_points` or
`scan_and_fire_alerts` (the ticker is represented by its
`symbol_id`). -/
structure HarvestHit where
  symbol_id : ℕ
  shares_to_sell : ℤ
  current_price : ℚ
  target_price : ℚ
  instance_id : ℕ
  rung_id : ℕ
deriving Repr, DecidableEq

/-- Embedding of `SQL_LIST_ACTIVE_PLANS`: the ACTIVE instances in row
order. -/
def listActivePlans (db : DB) : List PlanInstanceRow :=
  db.instances.filter fun i => i.status = InstStatus.ACTIVE

/-- Embedding of `HarvesterPlanDB.symbols_at_harvest_points`: for each
ACTIVE plan whose next pending rung exists and whose price poll succeeds,
report the rung when the current price has reached the target
(`current_price >= target_price`). -/
def symbols_at_harvest_points (db : DB) (poll : ℕ → Option ℚ) :
    List HarvestHit :=
  (listActivePlans db).filterMap fun i =>
    match getNextPendingRung db i.instance_id with
    | none => none
    | some (rung, sid) =>
        match poll sid with
        | none => none
        | some current_price =>
            if current_price ≥ rung.target_price then
              some
                { symbol_id := sid
                  shares_to_sell := rung.shares_sold_planned
                  current_price := current_price
                  target_price := rung.target_price
                  instance_id := i.instance_id
                  rung_id := rung.rung_id }
            else none

/-- Embedding of `SQL_GET_ACTIVE_ALERT_FOR_RUNG` (`LIMIT 1`). -/
def getActiveAlertForRung (db : DB) (rung_id : ℕ) : Option AlertRow :=
  db.alerts.find? fun a =>
    a.rung_id = rung_id ∧ a.status = AlertStatus.ACTIVE

/-- Embedding of `SQL_MARK_ALERT_FIRED`. -/
def markAlertFired (db : DB) (alert_id : ℕ) (price : ℚ) (ts : ℤ) : DB :=
  { db with
    alerts :=
      db.alerts.map fun a =>
        if a.alert_id = alert_id ∧ a.status = AlertStatus.ACTIVE then
          { a with
            status := AlertStatus.FIRED
            fired_at := some ts
            fired_price := some price
            last_checked_at := some ts }
        else a }

/-- Row-level effect of `SQL_MARK_RUNG_TRIGGERED`: PENDING rows matching
the rung id become TRIGGERED with the observed price. -/
def trigUpdate (rung_id : ℕ) (price : ℚ) (ts : ℤ) (r : PlanRungRow) :
    PlanRungRow :=
  if r.rung_id = rung_id ∧ r.status = RungStatus.PENDING then
    { r with
      status := RungStatus.TRIGGERED
      triggered_at := some ts
      trigger_price := some price }
  else r

/-- Embedding of `SQL_MARK_RUNG_TRIGGERED`. -/
def markRungTriggered (db : DB) (rung_id : ℕ) (price : ℚ) (ts : ℤ) : DB :=
  { db with rungs := db.rungs.map (trigUpdate rung_id price ts) }

/-- Body of the `scan_and_fire_alerts` loop for one ACTIVE instance:
fetch the next pending rung, poll the price, and when the target is
reached fire the rung's ACTIVE alert (if any), mark the rung TRIGGERED,
and append a hit. -/
def scanStep (poll : ℕ → Option ℚ) (ts : ℤ) (db : DB)
    (i : PlanInstanceRow) : DB × Option HarvestHit :=
  match getNextPendingRung db i.instance_id with
  | none => (db, none)
  | some (rung, sid) =>
      match poll sid with
      | none => (db, none)
      | some current_price =>
          if current_price < rung.target_price then (db, none)
          else
            let db1 :=
              match getActiveAlertForRung db rung.rung_id with
              | none => db
              | some a => markAlertFired db a.alert_id current_price ts
            let db2 := markRungTriggered db1 rung.rung_id current_price ts
            (db2,
              some
                { symbol_id := sid
                  shares_to_sell := rung.shares_sold_planned
                  current_price := current_price
                  target_price := rung.target_price
                  instance_id := i.instance_id
                  rung_id := rung.rung_id })

/-- One fold step of `scan_and_fire_alerts`: thread the store state and
append the fired hit, if any. -/
def scanFold (poll : ℕ → Option ℚ) (ts : ℤ) (acc : DB × List HarvestHit)
    (i : PlanInstanceRow) : DB × List HarvestHit :=
  ((scanStep poll ts acc.1 i).1,
    acc.2 ++ (scanStep poll ts acc.1 i).2.toList)

/-- Embedding of `HarvesterController.scan_and_fire_alerts`: fold the
per-instance step over the ACTIVE plans listed up front, threading the
store state, and collect the fired hits. -/
def scan_and_fire_alerts (db : DB) (poll : ℕ → Option ℚ) (ts : ℤ) :
    DB × List HarvestHit :=
  (listActivePlans db).foldl (scanFold poll ts) (db, [])

/-- A concrete oracle used to exercise the definitions on closed inputs
(the theorems themselves hold for every oracle). -/
def idOracle : MathFns :=
  { log := fun x => x, sqrt := fun x => x, powInv := fun x _ => x }

/-- Concrete fixture: a single PENDING rung (id 1 of instance 1). -/
def rungOne : PlanRungRow :=
  { rung_id := 1, instance_id := 1, rung_index := 1, target_price := 21/5
    shares_before := 21, shares_sold_planned := 1, shares_after_planned := 20
    status := RungStatus.PENDING, triggered_at := none, trigger_price := none
    executed_at := none, executed_price := none, shares_sold_actual := none
    tax_paid_actual := none, net_harvest_actual := none, notes := none }

/-- Concrete fixture: a single ACTIVE plan instance (id 1, symbol 1). -/
def instOne : PlanInstanceRow :=
  { instance_id := 1, symbol_id := 1, status := InstStatus.ACTIVE
    created_at := 0, price_asof := 5, shares_initial := 21, v0_floor := 84
    h_threshold := 1/20, n_iterations := 1, supersedes_instance_id := none }

/-- Concrete fixture: the ACTIVE alert on rung 1. -/
def alertOne : AlertRow :=
  { alert_id := 1, rung_id := 1, symbol_id := 1, instance_id := 1
    threshold_price := 21/5, status := AlertStatus.ACTIVE, created_at := 0
    last_checked_at := none, fired_at := none, fired_price := none }

/-- Concrete fixture: a store holding one ACTIVE plan with one PENDING
rung and its ACTIVE alert. -/
def dbOne : DB :=
  { instances := [instOne], rungs := [rungOne], alerts := [alertOne]
    next_instance_id := 2, next_rung_id := 2, next_alert_id := 2 }

/-- Concrete fixture: a SUPERSEDED plan instance for the same symbol. -/
def instSup : PlanInstanceRow :=
  { instance_id := 5, symbol_id := 1, status := InstStatus.SUPERSEDED
    created_at := -10, price_asof := 3, shares_initial := 10, v0_floor := 30
    h_threshold := 1/10, n_iterations := 1, supersedes_instance_id := none }

/-- Concrete fixture: a rung of the superseded instance. -/
def rungSup : PlanRungRow :=
  { rung_id := 9, instance_id := 5, rung_index := 1, target_price := 7/2
    shares_before := 10, shares_sold_planned := 1, shares_after_planned := 9
    status := RungStatus.PENDING, triggered_at := none, trigger_price := none
    executed_at := none, executed_price := none, shares_sold_actual := none
    tax_paid_actual := none, net_harvest_actual := none, notes := none }

/-- Concrete fixture: a DISABLED alert of the superseded instance. -/
def alertSup : AlertRow :=
  { alert_id := 4, rung_id := 9, symbol_id := 1, instance_id := 5
    threshold_price := 7/2, status := AlertStatus.DISABLED, created_at := -10
    last_checked_at := none, fired_at := none, fired_price := none }

/-- Concrete fixture: a store with one ACTIVE and one SUPERSEDED plan. -/
def dbTwo : DB :=
  { instances := [instOne, instSup], rungs := [rungOne, rungSup]
    alerts := [alertOne, alertSup]
    next_instance_id := 6, next_rung_id := 10, next_alert_id := 5 }

/-- Concrete fixture: the instance row `build_plan` produces from an
empty store and the window `[(1,1), (2,2), (4,5)]` (adj_close, close). -/
def builtInst : PlanInstanceRow :=
  { instance_id := 1, symbol_id := 1, status := InstStatus.ACTIVE
    created_at := 0, price_asof := 5, shares_initial := 2, v0_floor := 8
    h_threshold := 1, n_iterations := 1, supersedes_instance_id := none }

/-- Concrete fixture: the single rung of that built plan. -/
def builtRung : PlanRungRow :=
  { rung_id := 1, instance_id := 1, rung_index := 1, target_price := 8
    shares_before := 2, shares_sold_planned := 1, shares_after_planned := 1
    status := RungStatus.PENDING, triggered_at := none, trigger_price := none
    executed_at := none, executed_price := none, shares_sold_actual := none
    tax_paid_actual := none, net_harvest_actual := none, notes := none }

/-- Concrete fixture: the alert on that rung. -/
def builtAlert : AlertRow :=
  { alert_id := 1, rung_id := 1, symbol_id := 1, instance_id := 1
    threshold_price := 8, status := AlertStatus.ACTIVE, created_at := 0
    last_checked_at := none, fired_at := none, fired_price := none }

/-- Concrete fixture: the store produced by that `build_plan` run. -/
def dbBuilt : DB :=
  { instances := [builtInst], rungs := [builtRung], alerts := [builtAlert]
    next_instance_id := 2, next_rung_id := 2, next_alert_id := 2 }

/-! ## Ladder arithmetic lemmas -/

theorem computeTargetsAux_mem (V0 H : ℚ) :
    ∀ (fuel j : ℕ) (s : ℤ), ∀ r ∈ computeTargetsAux V0 H fuel j s,
      r.price_target = (1 + H) * V0 / r.shares_before ∧
      r.shares_after = ⌈V0 / r.price_target⌉ ∧
      r.shares_sold = r.shares_before - r.shares_after ∧
      1 ≤ r.shares_sold := by
  intro fuel
  induction fuel with
  | zero =>
      intro j s r hr
      simp [computeTargetsAux] at hr
  | succ n ih =>
      intro j s r hr
      simp only [computeTargetsAux] at hr
      split_ifs at hr with h1 h2
      · simp at hr
      · simp at hr
      · rcases List.mem_cons.mp hr with h | h
        · subst h
          refine ⟨rfl, rfl, rfl, ?_⟩
          simp only [not_lt] at h2
          show 1 ≤ s - ⌈V0 / ((1 + H) * V0 / (s : ℚ))⌉
          omega
        · exact ih _ _ r h

theorem computeTargetsAux_head_before (V0 H : ℚ) :
    ∀ (fuel j : ℕ) (s : ℤ) (r : LadderRung),
      (computeTargetsAux V0 H fuel j s).head? = some r →
      r.shares_before = s := by
  intro fuel j s r hr
  cases fuel with
  | zero => simp [computeTargetsAux] at hr
  | succ n =>
      simp only [computeTargetsAux] at hr
      split_ifs at hr with h1 h2
      · simp at hr
      · simp at hr
      · simp only [List.head?_cons, Option.some.injEq] at hr
        subst hr
        rfl

theorem computeTargetsAux_chain (V0 H : ℚ) :
    ∀ (fuel j : ℕ) (s : ℤ) (i : ℕ) (a b : LadderRung),
      (computeTargetsAux V0 H fuel j s).get? i = some a →
      (computeTargetsAux V0 H fuel j s).get? (i + 1) = some b →
      b.shares_before = a.shares_after := by
  intro fuel
  induction fuel with
  | zero =>
      intro j s i a b ha hb
      simp [computeTargetsAux] at ha
  | succ n ih =>
      intro j s i a b ha hb
      simp only [computeTargetsAux] at ha hb
      split_ifs at ha hb with h1 h2
      · simp at ha
      · simp at ha
      · cases i with
        | zero =>
            simp only [List.get?_cons_zero, Option.some.injEq] at ha
            simp only [List.get?_cons_succ, List.get?_zero] at hb
            have hbefore := computeTargetsAux_head_before V0 H n (j + 1) _ b hb
            rw [hbefore, ← ha]
        | succ i' =>
            simp only [List.get?_cons_succ] at ha hb
            exact ih _ _ i' a b ha hb

/-- C2: every ladder returned by `compute_price_targets P0 H s0 n_harvests`
with `V0 = s0 * P0` satisfies, rung by rung,
`target_price = (1 + H) * V0 / shares_before`,
`shares_after = ceil (V0 / target_price)`,
`shares_sold = shares_before - shares_after` with `shares_sold ≥ 1`, and
each subsequent rung's `shares_before` equals the previous rung's
`shares_after`. -/
theorem C2_ladder_rung_formulas (P0 H : ℚ) (s0 : ℤ) (n : ℕ) :
    (∀ r ∈ compute_price_targets P0 H s0 n,
      r.price_target = (1 + H) * ((s0 : ℚ) * P0) / r.shares_before ∧
      r.shares_after = ⌈((s0 : ℚ) * P0) / r.price_target⌉ ∧
      r.shares_sold = r.shares_before - r.shares_after ∧
      1 ≤ r.shares_sold) ∧
    (∀ (i : ℕ) (a b : LadderRung),
      (compute_price_targets P0 H s0 n).get? i = some a →
      (compute_price_targets P0 H s0 n).get? (i + 1) = some b →
      b.shares_before = a.shares_after) :=
  ⟨fun r hr => computeTargetsAux_mem ((s0 : ℚ) * P0) H n 1 s0 r hr,
   fun i a b ha hb => computeTargetsAux_chain ((s0 : ℚ) * P0) H n 1 s0 i a b ha hb⟩

/-- Ceiling as a negated floor, used to evaluate `⌈⌉` on concrete
rationals (`norm_num` evaluates `⌊⌋`). -/
theorem ceil_as_floor (a : ℚ) : ⌈a⌉ = -⌊-a⌋ := by
  rw [Int.floor_neg, neg_neg]

theorem C2_ladder_rung_formulas_witness :
    ((⟨1, 120, 12, 2, 10⟩ : LadderRung) ∈ compute_price_targets 100 (1/5) 12 3 ∧
      (1 : ℤ) ≤ (⟨1, 120, 12, 2, 10⟩ : LadderRung).shares_sold) ∧
    ((compute_price_targets 100 (1/5) 12 3).get? 0 = some ⟨1, 120, 12, 2, 10⟩ ∧
      (compute_price_targets 100 (1/5) 12 3).get? 1 = some ⟨2, 144, 10, 1, 9⟩ ∧
      (⟨2, 144, 10, 1, 9⟩ : LadderRung).shares_before =
        (⟨1, 120, 12, 2, 10⟩ : LadderRung).shares_after) :=
  ⟨⟨by norm_num [compute_price_targets, computeTargetsAux, ceil_as_floor],
    ((C2_ladder_rung_formulas 100 (1/5) 12 3).1 _
      (by norm_num [compute_price_targets, computeTargetsAux, ceil_as_floor])).2.2.2⟩,
   ⟨by norm_num [compute_price_targets, computeTargetsAux, ceil_as_floor],
    by norm_num [compute_price_targets, computeTargetsAux, ceil_as_floor],
    (C2_ladder_rung_formulas 100 (1/5) 12 3).2 0 _ _
      (by norm_num [compute_price_targets, computeTargetsAux, ceil_as_floor])
      (by norm_num [compute_price_targets, computeTargetsAux, ceil_as_floor])⟩⟩

/-! ## Minimality of the s0 scan -/

theorem find?_range'_min (p : ℕ → Bool) :
    ∀ (n a b : ℕ), (List.range' a n).find? p = some b →
      ∀ k, a ≤ k → k < b → p k = false := by
  intro n
  induction n with
  | zero =>
      intro a b h
      simp [List.range'] at h
  | succ m ih =>
      intro a b h k hak hkb
      rw [List.range'_succ] at h
      by_cases hpa : p a
      · rw [List.find?_cons_of_pos _ hpa] at h
        have : a = b := by simpa using h
        omega
      · rw [List.find?_cons_of_neg _ hpa] at h
        rcases Nat.eq_or_lt_of_le hak with rfl | hlt
        · simpa using hpa
        · exact ih (a + 1) b h k hlt hkb

/-- Inversion for `design_forward_ladder_from_history` when it returns a
plan. -/
theorem design_some_inv (M : MathFns) (prices : List ℚ) (Hopt : Option ℚ)
    (n max_s0 : ℕ) (alpha min_H max_H : ℚ) (plan : ForwardPlan)
    (Hv : ℚ) (av : Option ℚ)
    (hch : chooseH M prices Hopt alpha min_H max_H = some (Hv, av))
    (h : design_forward_ladder_from_history M prices Hopt n max_s0
        alpha min_H max_H = some plan) :
    ∃ s0n,
      findFeasibleS0 (prices.getLastD 0) Hv n max_s0 = some s0n ∧
      plan = mkForwardPlan M prices Hv av n s0n := by
  unfold design_forward_ladder_from_history at h
  by_cases h1 : prices.length < 2
  · rw [if_pos h1] at h
    exact absurd h (by simp)
  rw [if_neg h1] at h
  by_cases h2 : prices.headI ≤ 0 ∨ prices.getLastD 0 ≤ 0
  · rw [if_pos h2] at h
    exact absurd h (by simp)
  rw [if_neg h2, hch] at h
  dsimp only at h
  rcases hfs : findFeasibleS0 (prices.getLastD 0) Hv n max_s0 with _ | s0n
  all_goals rw [hfs] at h
  · exact absurd h (by simp)
  · dsimp only at h
    exact ⟨s0n, rfl, (Option.some.injEq _ _ ▸ h).symm⟩

/-- Inversion for `design_forward_ladder_from_history` when it fails even
though the input series and threshold are valid. -/
theorem design_none_inv (M : MathFns) (prices : List ℚ) (Hopt : Option ℚ)
    (n max_s0 : ℕ) (alpha min_H max_H : ℚ) (H : ℚ) (av : Option ℚ)
    (hlen : 2 ≤ prices.length) (hstart : 0 < prices.headI)
    (hcur : 0 < prices.getLastD 0)
    (hch : chooseH M prices Hopt alpha min_H max_H = some (H, av))
    (h : design_forward_ladder_from_history M prices Hopt n max_s0
        alpha min_H max_H = none) :
    findFeasibleS0 (prices.getLastD 0) H n max_s0 = none := by
  unfold design_forward_ladder_from_history at h
  rw [if_neg (by omega), if_neg (by push_neg; constructor <;> assumption),
    hch] at h
  dsimp only at h
  rcases hfs : findFeasibleS0 (prices.getLastD 0) H n max_s0 with _ | s0n
  · rfl
  · rw [hfs] at h
    exact absurd h (by simp)

/-- C1: for a valid chronologically ordered price history (length at
least 2, positive first and last prices) with a derivable threshold, when
`design_forward_ladder_from_history` returns a plan its `s0` is the
smallest integer in `[1, max_s0]` whose ladder
`compute_price_targets (P_current, H, s0, n_iterations)` completes
exactly `n_iterations` rungs — no smaller positive integer completes —
and when no such integer exists the function returns `none`. -/
theorem C1_minimal_s0 (M : MathFns) (prices : List ℚ) (Hopt : Option ℚ)
    (n max_s0 : ℕ) (alpha min_H max_H : ℚ) (Hv : ℚ) (av : Option ℚ)
    (hlen : 2 ≤ prices.length) (hstart : 0 < prices.headI)
    (hcur : 0 < prices.getLastD 0)
    (hch : chooseH M prices Hopt alpha min_H max_H = some (Hv, av)) :
    (∀ plan,
      design_forward_ladder_from_history M prices Hopt n max_s0
          alpha min_H max_H = some plan →
      1 ≤ plan.s0 ∧ plan.s0 ≤ (max_s0 : ℤ) ∧
      (compute_price_targets (prices.getLastD 0) Hv plan.s0 n).length = n ∧
      ∀ k : ℕ, 1 ≤ k → (k : ℤ) < plan.s0 →
        (compute_price_targets (prices.getLastD 0) Hv (k : ℤ) n).length ≠ n) ∧
    (design_forward_ladder_from_history M prices Hopt n max_s0
        alpha min_H max_H = none →
      ∀ k : ℕ, 1 ≤ k → k ≤ max_s0 →
        (compute_price_targets (prices.getLastD 0) Hv (k : ℤ) n).length ≠ n) := by
  constructor
  · intro plan hp
    obtain ⟨s0n, hfs, hplan⟩ :=
      design_some_inv M prices Hopt n max_s0 alpha min_H max_H plan Hv av
        hch hp
    have hs0 : plan.s0 = (s0n : ℤ) := by rw [hplan]; rfl
    unfold findFeasibleS0 at hfs
    have hmem := List.mem_of_find?_eq_some hfs
    rw [List.mem_range'_1] at hmem
    have hpred := List.find?_some hfs
    rw [decide_eq_true_eq] at hpred
    refine ⟨by omega, by omega, ?_, ?_⟩
    · rw [hs0]
      exact hpred
    · intro k hk1 hk2
      rw [hs0] at hk2
      have hkmin := find?_range'_min _ max_s0 1 s0n hfs k hk1 (by omega)
      intro hcontra
      rw [decide_eq_false_iff_not] at hkmin
      exact hkmin hcontra
  · intro hnone k hk1 hk2
    have hfsn := design_none_inv M prices Hopt n max_s0 alpha min_H max_H
      Hv av hlen hstart hcur hch hnone
    unfold findFeasibleS0 at hfsn
    have := List.find?_eq_none.mp hfsn k (by rw [List.mem_range'_1]; omega)
    rw [decide_eq_true_eq] at this
    exact this

theorem C1_minimal_s0_witness :
    (2 ≤ ([1, 4] : List ℚ).length ∧ 0 < ([1, 4] : List ℚ).headI ∧
      0 < ([1, 4] : List ℚ).getLastD 0 ∧
      chooseH idOracle [1, 4] (some (1/20)) (1/2) (1/20) (3/10) =
        some (1/20, none)) ∧
    (∀ plan,
      design_forward_ladder_from_history idOracle [1, 4] (some (1/20)) 1 30
          (1/2) (1/20) (3/10) = some plan →
      1 ≤ plan.s0 ∧ plan.s0 ≤ (30 : ℤ) ∧
      (compute_price_targets (([1, 4] : List ℚ).getLastD 0) (1/20)
          plan.s0 1).length = 1 ∧
      ∀ k : ℕ, 1 ≤ k → (k : ℤ) < plan.s0 →
        (compute_price_targets (([1, 4] : List ℚ).getLastD 0) (1/20)
            (k : ℤ) 1).length ≠ 1) :=
  ⟨⟨by norm_num, by norm_num [List.headI], by norm_num,
    by norm_num [chooseH, compute_historical_volatility, logReturns,
      pricePairs, idOracle, List.filterMap_cons]⟩,
   (C1_minimal_s0 idOracle [1, 4] (some (1/20)) 1 30 (1/2) (1/20) (3/10)
      (1/20) none (by norm_num) (by norm_num [List.headI]) (by norm_num)
      (by norm_num [chooseH, compute_historical_volatility, logReturns,
        pricePairs, idOracle, List.filterMap_cons])).1⟩

/-- The number of usable log returns is bounded by the number of price
intervals. -/
theorem logReturns_length_le (M : MathFns) (prices : List ℚ) :
    (logReturns M prices).length ≤ prices.length - 1 := by
  calc (logReturns M prices).length
      ≤ (pricePairs prices).length := List.length_filterMap_le _ _
    _ ≤ prices.length - 1 := by
        rw [pricePairs, List.length_zip, List.length_tail]
        omega

/-- C8: with at least two usable log returns over consecutive positive
price pairs, `suggest_H_from_vol` returns
`H = max(min_H, min(max_H, alpha * annual_vol))` where `annual_vol` is
`sqrt 252` times the sample standard deviation (`n - 1` denominator) of
those log returns; with fewer than two it returns `(None, None)`; a fixed
`H` passed to `design_forward_ladder_from_history` is used unchanged
while the volatility is still computed for reporting. -/
theorem C8_volatility_threshold (M : MathFns) (prices : List ℚ)
    (alpha min_H max_H : ℚ) :
    (2 ≤ (logReturns M prices).length →
      suggest_H_from_vol M prices alpha min_H max_H =
        some (max min_H (min max_H
            (alpha * (M.sqrt (sampleVar (logReturns M prices)) *
              M.sqrt 252))),
          M.sqrt (sampleVar (logReturns M prices)) * M.sqrt 252)) ∧
    ((logReturns M prices).length < 2 →
      suggest_H_from_vol M prices alpha min_H max_H = none) ∧
    (∀ (Hfix : ℚ) (n max_s0 : ℕ) (plan : ForwardPlan),
      design_forward_ladder_from_history M prices (some Hfix) n max_s0
          alpha min_H max_H = some plan →
      plan.H = Hfix ∧
      plan.annual_vol =
        (compute_historical_volatility M prices).map Prod.snd) := by
  refine ⟨?_, ?_, ?_⟩
  · intro hrs
    have hlen : 2 ≤ prices.length := by
      have := logReturns_length_le M prices
      omega
    unfold suggest_H_from_vol compute_historical_volatility
    rw [if_neg (by omega), if_neg (by omega)]
  · intro hrs
    unfold suggest_H_from_vol compute_historical_volatility
    by_cases hlen : prices.length < 2
    · rw [if_pos hlen]
    · rw [if_neg hlen, if_pos hrs]
  · intro Hfix n max_s0 plan hp
    obtain ⟨s0n, _, hplan⟩ :=
      design_some_inv M prices (some Hfix) n max_s0 alpha min_H max_H plan
        Hfix ((compute_historical_volatility M prices).map Prod.snd) rfl hp
    rw [hplan]
    exact ⟨rfl, rfl⟩

theorem C8_volatility_threshold_witness :
    (2 ≤ (logReturns idOracle [1, 2, 4]).length ∧
      suggest_H_from_vol idOracle [1, 2, 4] (1/2) (1/20) (3/10) =
        some (max (1/20) (min (3/10)
            ((1/2) * (idOracle.sqrt (sampleVar (logReturns idOracle [1, 2, 4])) *
              idOracle.sqrt 252))),
          idOracle.sqrt (sampleVar (logReturns idOracle [1, 2, 4])) *
            idOracle.sqrt 252)) ∧
    ((logReturns idOracle [1, 4]).length < 2 ∧
      suggest_H_from_vol idOracle [1, 4] (1/2) (1/20) (3/10) = none) :=
  ⟨⟨by norm_num [logReturns, pricePairs, idOracle, List.filterMap_cons],
    (C8_volatility_threshold idOracle [1, 2, 4] (1/2) (1/20) (3/10)).1
      (by norm_num [logReturns, pricePairs, idOracle, List.filterMap_cons])⟩,
   ⟨by norm_num [logReturns, pricePairs, idOracle, List.filterMap_cons],
    (C8_volatility_threshold idOracle [1, 4] (1/2) (1/20) (3/10)).2.1
      (by norm_num [logReturns, pricePairs, idOracle, List.filterMap_cons])⟩⟩

/-- C9: on every input on which a plan cannot be built — fewer than two
prices, non-positive first or last price, undefined volatility, or no
`s0 ≤ max_s0` completing `n_iterations` rungs —
`design_forward_ladder_from_history` returns `none`, never a partial
ladder, and `build_plan` consequently fails (returns `none`) without
producing any plan instance, rung, or alert rows. -/
theorem C9_failure_modes (M : MathFns) (prices : List ℚ)
    (n max_s0 : ℕ) (alpha min_H max_H : ℚ) :
    ((prices.length < 2 ∨ prices.headI ≤ 0 ∨ prices.getLastD 0 ≤ 0 ∨
        suggest_H_from_vol M prices alpha min_H max_H = none ∨
        (∀ Hv av,
          suggest_H_from_vol M prices alpha min_H max_H = some (Hv, av) →
          ∀ k : ℕ, 1 ≤ k → k ≤ max_s0 →
            (compute_price_targets (prices.getLastD 0) Hv (k : ℤ) n).length ≠ n)) →
      design_forward_ladder_from_history M prices none n max_s0
        alpha min_H max_H = none) ∧
    (∀ (db : DB) (sid : ℕ) (window : List BarRow) (now : ℤ),
      (window.length < 2 ∨
        design_forward_ladder_from_history M (window.map BarRow.adj_close)
          none n max_s0 alpha min_H max_H = none) →
      build_plan M db sid window n max_s0 alpha min_H max_H now = none) := by
  constructor
  · intro hfail
    unfold design_forward_ladder_from_history
    by_cases h1 : prices.length < 2
    · rw [if_pos h1]
    rw [if_neg h1]
    by_cases h2 : prices.headI ≤ 0 ∨ prices.getLastD 0 ≤ 0
    · rw [if_pos h2]
    rw [if_neg h2]
    rcases hsg : suggest_H_from_vol M prices alpha min_H max_H with _ | ⟨Hv, av⟩
    · have hch : chooseH M prices none alpha min_H max_H = none := by
        unfold chooseH
        rw [hsg]
      rw [hch]
    · have hch : chooseH M prices none alpha min_H max_H =
          some (Hv, some av) := by
        unfold chooseH
        rw [hsg]
      rw [hch]
      dsimp only
      have hinf : ∀ k : ℕ, 1 ≤ k → k ≤ max_s0 →
          (compute_price_targets (prices.getLastD 0) Hv (k : ℤ) n).length ≠ n := by
        rcases hfail with h | h | h | h | h
        · omega
        · exact absurd (Or.inl h) h2
        · exact absurd (Or.inr h) h2
        · rw [hsg] at h
          exact absurd h (by simp)
        · exact h Hv av hsg
      have hfs : findFeasibleS0 (prices.getLastD 0) Hv n max_s0 = none := by
        unfold findFeasibleS0
        rw [List.find?_eq_none]
        intro k hk
        rw [List.mem_range'_1] at hk
        rw [decide_eq_true_eq]
        exact hinf k hk.1 (by omega)
      rw [hfs]
  · intro db sid window now hfail
    unfold build_plan
    by_cases h1 : window.length < 2
    · rw [if_pos h1]
    rw [if_neg h1]
    rcases hfail with h | h
    · omega
    · rw [h]

theorem C9_failure_modes_witness :
    ((([1] : List ℚ).length < 2 ∨ ([1] : List ℚ).headI ≤ 0 ∨
        ([1] : List ℚ).getLastD 0 ≤ 0 ∨
        suggest_H_from_vol idOracle [1] (1/2) (1/20) (3/10) = none ∨
        (∀ Hv av,
          suggest_H_from_vol idOracle [1] (1/2) (1/20) (3/10) = some (Hv, av) →
          ∀ k : ℕ, 1 ≤ k → k ≤ 30 →
            (compute_price_targets (([1] : List ℚ).getLastD 0) Hv
              (k : ℤ) 2).length ≠ 2)) ∧
      design_forward_ladder_from_history idOracle [1] none 2 30
        (1/2) (1/20) (3/10) = none) ∧
    (([⟨1, 1⟩] : List BarRow).length < 2 ∧
      build_plan idOracle ⟨[], [], [], 1, 1, 1⟩ 7 [⟨1, 1⟩] 2 30
        (1/2) (1/20) (3/10) 0 = none) :=
  ⟨⟨Or.inl (by norm_num),
    (C9_failure_modes idOracle [1] 2 30 (1/2) (1/20) (3/10)).1
      (Or.inl (by norm_num))⟩,
   ⟨by norm_num,
    (C9_failure_modes idOracle [1] 2 30 (1/2) (1/20) (3/10)).2
      ⟨[], [], [], 1, 1, 1⟩ 7 [⟨1, 1⟩] 0 (Or.inl (by norm_num))⟩⟩

/-! ## Plan store lemmas -/

theorem map_id_of_mem {α : Type} (l : List α) (f : α → α)
    (h : ∀ a ∈ l, f a = a) : l.map f = l := by
  have h2 : l.map f = l.map id := List.map_congr_left h
  simpa using h2

theorem length_le_one_of_nodup_const {α β : Type} (l : List α) (f : α → β)
    (c : β) (hnd : (l.map f).Nodup) (hc : ∀ a ∈ l, f a = c) :
    l.length ≤ 1 := by
  match l with
  | [] => simp
  | [x] => simp
  | x :: y :: ys =>
      exfalso
      rw [List.map_cons, List.nodup_cons] at hnd
      apply hnd.1
      rw [hc x (by simp), ← hc y (by simp)]
      simp

theorem upsert_preserves_rungs (db : DB) (rid sid iid : ℕ) (thr : ℚ)
    (now : ℤ) : (upsertAlertForRung db rid sid iid thr now).rungs = db.rungs := by
  unfold upsertAlertForRung
  split <;> rfl

theorem upsert_preserves_instances (db : DB) (rid sid iid : ℕ) (thr : ℚ)
    (now : ℤ) :
    (upsertAlertForRung db rid sid iid thr now).instances = db.instances := by
  unfold upsertAlertForRung
  split <;> rfl

theorem disable_preserves_rungs (db : DB) (iid rid : ℕ) :
    (disableOtherAlerts db iid rid).rungs = db.rungs := rfl

theorem disable_preserves_instances (db : DB) (iid rid : ℕ) :
    (disableOtherAlerts db iid rid).instances = db.instances := rfl

theorem ensure_preserves_rungs (db : DB) (iid : ℕ) (now : ℤ) :
    (ensure_next_rung_alert db iid now).rungs = db.rungs := by
  unfold ensure_next_rung_alert
  split
  · rfl
  · rw [disable_preserves_rungs, upsert_preserves_rungs]

theorem ensure_preserves_instances (db : DB) (iid : ℕ) (now : ℤ) :
    (ensure_next_rung_alert db iid now).instances = db.instances := by
  unfold ensure_next_rung_alert
  split
  · rfl
  · rw [disable_preserves_instances, upsert_preserves_instances]

theorem getNextPendingRung_congr (db1 db2 : DB) (iid : ℕ)
    (hr : db1.rungs = db2.rungs) (hi : db1.instances = db2.instances) :
    getNextPendingRung db1 iid = getNextPendingRung db2 iid := by
  unfold getNextPendingRung instanceActive
  rw [hr, hi]

theorem minByRungIndex_mem (l : List PlanRungRow) (r : PlanRungRow)
    (h : minByRungIndex l = some r) : r ∈ l := by
  induction l with
  | nil => simp [minByRungIndex] at h
  | cons x xs ih =>
      unfold minByRungIndex at h
      rcases hxs : minByRungIndex xs with _ | b
      · rw [hxs] at h
        simp only [Option.some.injEq] at h
        exact h ▸ List.mem_cons_self _ _
      · rw [hxs] at h
        dsimp only at h
        by_cases hle : x.rung_index ≤ b.rung_index
        · rw [if_pos hle] at h
          simp only [Option.some.injEq] at h
          exact h ▸ List.mem_cons_self _ _
        · rw [if_neg hle] at h
          simp only [Option.some.injEq] at h
          exact List.mem_cons_of_mem _ (ih (h ▸ hxs))

theorem minByRungIndex_le (l : List PlanRungRow) (r : PlanRungRow)
    (h : minByRungIndex l = some r) :
    ∀ x ∈ l, r.rung_index ≤ x.rung_index := by
  induction l generalizing r with
  | nil => simp [minByRungIndex] at h
  | cons x xs ih =>
      unfold minByRungIndex at h
      intro y hy
      rcases hxs : minByRungIndex xs with _ | b
      all_goals rw [hxs] at h
      · simp only [Option.some.injEq] at h
        subst h
        rcases List.mem_cons.mp hy with rfl | hy
        · exact le_refl _
        · cases xs with
          | nil => simp at hy
          | cons z zs =>
              exfalso
              unfold minByRungIndex at hxs
              rcases hz : minByRungIndex zs with _ | w
              all_goals rw [hz] at hxs
              · exact absurd hxs (by simp)
              · dsimp only at hxs
                split_ifs at hxs
      · dsimp only at h
        rcases List.mem_cons.mp hy with rfl | hy
        · split_ifs at h with hle
          · simp only [Option.some.injEq] at h
            exact h ▸ le_refl _
          · simp only [Option.some.injEq] at h
            subst h
            omega
        · have hb := ih b hxs y hy
          split_ifs at h with hle
          · simp only [Option.some.injEq] at h
            subst h
            omega
          · simp only [Option.some.injEq] at h
            subst h
            exact hb

/-- Every rung returned by `getNextPendingRung` belongs to the instance,
is PENDING, is stored, and has the smallest index among the instance's
pending rungs. -/
theorem getNextPendingRung_sound (db : DB) (iid : ℕ) (r : PlanRungRow)
    (sid : ℕ) (h : getNextPendingRung db iid = some (r, sid)) :
    r ∈ db.rungs ∧ r.instance_id = iid ∧ r.status = RungStatus.PENDING ∧
    (∀ r' ∈ db.rungs, r'.instance_id = iid →
      r'.status = RungStatus.PENDING → r.rung_index ≤ r'.rung_index) := by
  unfold getNextPendingRung at h
  by_cases hact : instanceActive db iid
  swap
  · rw [if_neg (by simpa using hact)] at h
    exact absurd h (by simp)
  rw [if_pos (by simpa using hact)] at h
  rcases hmin : minByRungIndex
      (db.rungs.filter fun rr =>
        rr.instance_id = iid ∧ rr.status = RungStatus.PENDING) with _ | r0
  all_goals rw [hmin] at h
  · exact absurd h (by simp)
  rcases hfind : db.instances.find? fun i => i.instance_id = iid with _ | i0
  all_goals rw [hfind] at h
  · exact absurd h (by simp)
  simp only [Option.some.injEq, Prod.mk.injEq] at h
  obtain ⟨hr0, _⟩ := h
  subst hr0
  have hr0mem := minByRungIndex_mem _ _ hmin
  rw [List.mem_filter] at hr0mem
  obtain ⟨hr0mem, hr0cond⟩ := hr0mem
  simp only [decide_eq_true_eq] at hr0cond
  refine ⟨hr0mem, hr0cond.1, hr0cond.2, ?_⟩
  intro r' hr' hinst hpend
  refine minByRungIndex_le _ _ hmin r' ?_
  rw [List.mem_filter]
  exact ⟨hr', by simp [hinst, hpend]⟩

theorem disable_active_rung (db : DB) (iid rid : ℕ) :
    ∀ a ∈ (disableOtherAlerts db iid rid).alerts,
      a.instance_id = iid → a.status = AlertStatus.ACTIVE →
      a.rung_id = rid := by
  intro a ha hinst hact
  unfold disableOtherAlerts at ha
  simp only [List.mem_map] at ha
  obtain ⟨b, _, hba⟩ := ha
  by_cases hcond : b.instance_id = iid ∧ b.status = AlertStatus.ACTIVE ∧
      b.rung_id ≠ rid
  · rw [if_pos hcond] at hba
    rw [← hba] at hact
    exact absurd hact (by simp)
  · rw [if_neg hcond] at hba
    subst hba
    by_contra hne
    exact hcond ⟨hinst, hact, hne⟩

theorem disable_nonactive_elsewhere (db : DB) (iid rid : ℕ) :
    ∀ a ∈ (disableOtherAlerts db iid rid).alerts,
      a.instance_id = iid → a.rung_id ≠ rid →
      a.status = AlertStatus.DISABLED ∨ a.status = AlertStatus.FIRED := by
  intro a ha hinst hne
  unfold disableOtherAlerts at ha
  simp only [List.mem_map] at ha
  obtain ⟨b, _, hba⟩ := ha
  by_cases hcond : b.instance_id = iid ∧ b.status = AlertStatus.ACTIVE ∧
      b.rung_id ≠ rid
  · rw [if_pos hcond] at hba
    rw [← hba]
    exact Or.inl rfl
  · rw [if_neg hcond] at hba
    rw [← hba] at hinst hne ⊢
    cases hst : b.status with
    | ACTIVE => exact absurd ⟨hinst, hst, hne⟩ hcond
    | FIRED => exact Or.inr rfl
    | DISABLED => exact Or.inl rfl

theorem upsert_alert_status (db : DB) (rid sid iid : ℕ) (thr : ℚ)
    (now : ℤ) :
    ∀ a ∈ (upsertAlertForRung db rid sid iid thr now).alerts,
      a.rung_id = rid →
      a.status = AlertStatus.ACTIVE ∧ a.threshold_price = thr := by
  intro a ha hrid
  unfold upsertAlertForRung at ha
  by_cases hc : (db.alerts.any fun b => b.rung_id = rid) = true
  · rw [if_pos hc] at ha
    simp only [List.mem_map] at ha
    obtain ⟨b, _, hba⟩ := ha
    by_cases hbr : b.rung_id = rid
    · rw [if_pos hbr] at hba
      rw [← hba]
      exact ⟨rfl, rfl⟩
    · rw [if_neg hbr] at hba
      subst hba
      exact absurd hrid hbr
  · rw [if_neg hc] at ha
    simp only [List.mem_append, List.mem_singleton] at ha
    rcases ha with ha | ha
    · exfalso
      apply hc
      rw [List.any_eq_true]
      exact ⟨a, ha, by simp [hrid]⟩
    · subst ha
      exact ⟨rfl, rfl⟩

theorem upsert_exists_rung_alert (db : DB) (rid sid iid : ℕ) (thr : ℚ)
    (now : ℤ) :
    ∃ a ∈ (upsertAlertForRung db rid sid iid thr now).alerts,
      a.rung_id = rid := by
  unfold upsertAlertForRung
  by_cases hc : (db.alerts.any fun b => b.rung_id = rid) = true
  · rw [if_pos hc]
    rw [List.any_eq_true] at hc
    obtain ⟨b, hb, hbr⟩ := hc
    simp only [decide_eq_true_eq] at hbr
    refine ⟨if b.rung_id = rid then
        { b with threshold_price := thr, status := AlertStatus.ACTIVE }
      else b, List.mem_map_of_mem _ hb, ?_⟩
    rw [if_pos hbr]
    exact hbr
  · rw [if_neg hc]
    exact ⟨_, List.mem_append_right _ (List.mem_singleton_self _), rfl⟩

theorem disable_mem_of_rung (db : DB) (iid rid : ℕ) :
    ∀ a ∈ db.alerts, a.rung_id = rid →
      a ∈ (disableOtherAlerts db iid rid).alerts := by
  intro a ha hrid
  unfold disableOtherAlerts
  have : (if a.instance_id = iid ∧ a.status = AlertStatus.ACTIVE ∧
      a.rung_id ≠ rid then
        { a with status := AlertStatus.DISABLED } else a) = a := by
    rw [if_neg]
    rintro ⟨_, _, hne⟩
    exact hne hrid
  rw [← this]
  exact List.mem_map_of_mem _ ha

theorem upsert_rung_ids (db : DB) (rid sid iid : ℕ) (thr : ℚ) (now : ℤ)
    (hnd : (db.alerts.map AlertRow.rung_id).Nodup) :
    ((upsertAlertForRung db rid sid iid thr now).alerts.map
      AlertRow.rung_id).Nodup := by
  unfold upsertAlertForRung
  by_cases hc : (db.alerts.any fun b => b.rung_id = rid) = true
  · rw [if_pos hc]
    have : (db.alerts.map fun a =>
        if a.rung_id = rid then
          { a with threshold_price := thr, status := AlertStatus.ACTIVE }
        else a).map AlertRow.rung_id = db.alerts.map AlertRow.rung_id := by
      rw [List.map_map]
      refine List.map_congr_left ?_
      intro a _
      by_cases hr : a.rung_id = rid
      · simp [hr]
      · simp [hr]
    simpa [this] using hnd
  · rw [if_neg hc]
    simp only [List.map_append, List.map_cons, List.map_nil]
    rw [List.nodup_append]
    refine ⟨hnd, by simp, ?_⟩
    intro x hx hx1
    simp only [List.mem_singleton] at hx1
    subst hx1
    simp only [List.mem_map] at hx
    obtain ⟨b, hb, hbr⟩ := hx
    apply hc
    rw [List.any_eq_true]
    exact ⟨b, hb, by simp [hbr]⟩

theorem disable_rung_ids (db : DB) (iid rid : ℕ)
    (hnd : (db.alerts.map AlertRow.rung_id).Nodup) :
    ((disableOtherAlerts db iid rid).alerts.map AlertRow.rung_id).Nodup := by
  unfold disableOtherAlerts
  have : (db.alerts.map fun a =>
      if a.instance_id = iid ∧ a.status = AlertStatus.ACTIVE ∧
          a.rung_id ≠ rid then
        { a with status := AlertStatus.DISABLED }
      else a).map AlertRow.rung_id = db.alerts.map AlertRow.rung_id := by
    rw [List.map_map]
    refine List.map_congr_left ?_
    intro a _
    by_cases hcond : a.instance_id = iid ∧ a.status = AlertStatus.ACTIVE ∧
        a.rung_id ≠ rid
    · simp [hcond]
    · simp [hcond]
  simpa [this] using hnd

theorem ensure_rung_ids (db : DB) (iid : ℕ) (now : ℤ)
    (hnd : (db.alerts.map AlertRow.rung_id).Nodup) :
    ((ensure_next_rung_alert db iid now).alerts.map AlertRow.rung_id).Nodup := by
  unfold ensure_next_rung_alert
  split
  · exact hnd
  · exact disable_rung_ids _ _ _ (upsert_rung_ids _ _ _ _ _ _ hnd)

/-- Postcondition of `_ensure_next_rung_alert` when a next pending rung
exists: every ACTIVE alert of the instance is the one on that rung, that
rung's alert is ACTIVE at the rung's target price, and all other alerts
of the instance are DISABLED or FIRED. -/
theorem ensure_spec (db : DB) (iid : ℕ) (now : ℤ) (r : PlanRungRow)
    (sid : ℕ) (hnp : getNextPendingRung db iid = some (r, sid)) :
    (∀ a ∈ (ensure_next_rung_alert db iid now).alerts,
      a.instance_id = iid → a.status = AlertStatus.ACTIVE →
      a.rung_id = r.rung_id) ∧
    (∀ a ∈ (ensure_next_rung_alert db iid now).alerts,
      a.rung_id = r.rung_id →
      a.status = AlertStatus.ACTIVE ∧ a.threshold_price = r.target_price) ∧
    (∃ a ∈ (ensure_next_rung_alert db iid now).alerts,
      a.rung_id = r.rung_id) ∧
    (∀ a ∈ (ensure_next_rung_alert db iid now).alerts,
      a.instance_id = iid → a.rung_id ≠ r.rung_id →
      a.status = AlertStatus.DISABLED ∨ a.status = AlertStatus.FIRED) := by
  have hun : ensure_next_rung_alert db iid now =
      disableOtherAlerts
        (upsertAlertForRung db r.rung_id sid iid r.target_price now)
        iid r.rung_id := by
    unfold ensure_next_rung_alert
    rw [hnp]
  rw [hun]
  refine ⟨disable_active_rung _ _ _, ?_, ?_, disable_nonactive_elsewhere _ _ _⟩
  · intro a ha hrid
    unfold disableOtherAlerts at ha
    simp only [List.mem_map] at ha
    obtain ⟨b, hb, hba⟩ := ha
    by_cases hcond : b.instance_id = iid ∧ b.status = AlertStatus.ACTIVE ∧
        b.rung_id ≠ r.rung_id
    · rw [if_pos hcond] at hba
      exfalso
      apply hcond.2.2
      rw [← hba] at hrid
      exact hrid
    · rw [if_neg hcond] at hba
      rw [← hba] at hrid ⊢
      exact upsert_alert_status db r.rung_id sid iid r.target_price now b
        hb hrid
  · obtain ⟨a, ha, hrid⟩ :=
      upsert_exists_rung_alert db r.rung_id sid iid r.target_price now
    exact ⟨a, disable_mem_of_rung _ _ _ a ha hrid, hrid⟩

theorem ensure_idempotent (db : DB) (iid : ℕ) (t t' : ℤ) :
    ensure_next_rung_alert (ensure_next_rung_alert db iid t) iid t' =
      ensure_next_rung_alert db iid t := by
  rcases hnp : getNextPendingRung db iid with _ | ⟨r, sid⟩
  · have h1 : ensure_next_rung_alert db iid t = db := by
      unfold ensure_next_rung_alert
      rw [hnp]
    rw [h1]
    unfold ensure_next_rung_alert
    rw [hnp]
  · have hspec := ensure_spec db iid t r sid hnp
    have hnp' : getNextPendingRung (ensure_next_rung_alert db iid t) iid =
        some (r, sid) := by
      rw [getNextPendingRung_congr _ db iid (ensure_preserves_rungs _ _ _)
        (ensure_preserves_instances _ _ _), hnp]
    set E := ensure_next_rung_alert db iid t with hE
    clear_value E
    show ensure_next_rung_alert E iid t' = E
    unfold ensure_next_rung_alert
    rw [hnp']
    dsimp only
    have hany : (E.alerts.any fun b => b.rung_id = r.rung_id) = true := by
      rw [List.any_eq_true]
      obtain ⟨a, ha, har⟩ := hspec.2.2.1
      exact ⟨a, ha, by simp [har]⟩
    have hup : upsertAlertForRung E r.rung_id sid iid r.target_price t' =
        E := by
      unfold upsertAlertForRung
      rw [if_pos hany]
      have hmap : E.alerts.map
          (fun a => if a.rung_id = r.rung_id then
            { a with threshold_price := r.target_price,
                     status := AlertStatus.ACTIVE }
          else a) = E.alerts := by
        apply map_id_of_mem
        intro a ha
        by_cases hr : a.rung_id = r.rung_id
        · rw [if_pos hr]
          obtain ⟨hact, hthr⟩ := hspec.2.1 a ha hr
          cases a
          simp_all
        · rw [if_neg hr]
      rw [hmap]
    rw [hup]
    unfold disableOtherAlerts
    have hmap2 : E.alerts.map
        (fun a => if a.instance_id = iid ∧ a.status = AlertStatus.ACTIVE ∧
            a.rung_id ≠ r.rung_id then
          { a with status := AlertStatus.DISABLED }
        else a) = E.alerts := by
      apply map_id_of_mem
      intro a ha
      rw [if_neg]
      rintro ⟨hinst, hact, hne⟩
      exact hne (hspec.1 a ha hinst hact)
    rw [hmap2]

theorem markRungExecuted_alerts (db : DB) (rid : ℕ) (p : ℚ) (s : ℤ)
    (t : ℚ) (ts : ℤ) : (markRungExecuted db rid p s t ts).alerts = db.alerts :=
  rfl

theorem markRungExecuted_instances (db : DB) (rid : ℕ) (p : ℚ) (s : ℤ)
    (t : ℚ) (ts : ℤ) :
    (markRungExecuted db rid p s t ts).instances = db.instances :=
  rfl

/-- With no notes, `record_execution` is the executed-update followed by
an alert refresh on the rung's instance (or just the update when the
rung id is absent). -/
theorem record_execution_eq_ensure (db : DB) (rid : ℕ) (p : ℚ) (s : ℤ)
    (t : ℚ) (ts : ℤ) (r0 : PlanRungRow)
    (hfind : (markRungExecuted db rid p s t ts).rungs.find?
      (fun r => r.rung_id = rid) = some r0) :
    record_execution db rid p s t ts none =
      ensure_next_rung_alert (markRungExecuted db rid p s t ts)
        r0.instance_id ts := by
  unfold record_execution
  dsimp only
  rw [hfind]

theorem record_execution_no_rung (db : DB) (rid : ℕ) (p : ℚ) (s : ℤ)
    (t : ℚ) (ts : ℤ)
    (hfind : (markRungExecuted db rid p s t ts).rungs.find?
      (fun r => r.rung_id = rid) = none) :
    record_execution db rid p s t ts none =
      markRungExecuted db rid p s t ts := by
  unfold record_execution
  dsimp only
  rw [hfind]

theorem insertPlanBase_alerts (db : DB) (sid : ℕ) (plan : ForwardPlan)
    (pa : ℚ) (now : ℤ) :
    (insertPlanBase db sid plan pa now).alerts = db.alerts :=
  rfl

theorem insertPlanInstance_eq (db : DB) (sid : ℕ) (plan : ForwardPlan)
    (pa : ℚ) (now : ℤ) :
    (insertPlanInstance db sid plan pa now).1 =
      ensure_next_rung_alert (insertPlanBase db sid plan pa now)
        (insertPlanInstance db sid plan pa now).2 now :=
  rfl

theorem record_execution_rung_ids (db : DB) (rid : ℕ) (p : ℚ) (s : ℤ)
    (t : ℚ) (ts : ℤ)
    (hnd : (db.alerts.map AlertRow.rung_id).Nodup) :
    ((record_execution db rid p s t ts none).alerts.map
      AlertRow.rung_id).Nodup := by
  rcases hfind : (markRungExecuted db rid p s t ts).rungs.find?
      (fun r => r.rung_id = rid) with _ | r0
  · rw [record_execution_no_rung db rid p s t ts hfind,
      markRungExecuted_alerts]
    exact hnd
  · rw [record_execution_eq_ensure db rid p s t ts r0 hfind]
    exact ensure_rung_ids _ _ _ (by rw [markRungExecuted_alerts]; exact hnd)

/-- Inversion for `build_plan` when it succeeds. -/
theorem build_plan_some_inv (M : MathFns) (db : DB) (sid : ℕ)
    (window : List BarRow) (n max_s0 : ℕ) (alpha min_H max_H : ℚ)
    (now : ℤ) (db' : DB) (iid : ℕ)
    (h : build_plan M db sid window n max_s0 alpha min_H max_H now =
      some (db', iid)) :
    ∃ plan,
      design_forward_ladder_from_history M (window.map BarRow.adj_close)
        none n max_s0 alpha min_H max_H = some plan ∧
      db' = (insertPlanInstance db sid plan
        ((window.map BarRow.close).getLastD 0) now).1 ∧
      iid = db.next_instance_id := by
  unfold build_plan at h
  by_cases h1 : window.length < 2
  · rw [if_pos h1] at h
    exact absurd h (by simp)
  rw [if_neg h1] at h
  rcases hd : design_forward_ladder_from_history M
      (window.map BarRow.adj_close) none n max_s0 alpha min_H max_H
    with _ | plan
  all_goals rw [hd] at h
  · exact absurd h (by simp)
  · dsimp only at h
    simp only [Option.some.injEq] at h
    exact ⟨plan, rfl, (congrArg Prod.fst h).symm,
      (congrArg Prod.snd h).symm⟩

/-- Bundled alert postcondition of `_ensure_next_rung_alert` under
per-rung uniqueness: all ACTIVE alerts of the instance sit on the next
pending rung, there is at most one of them, and the instance's other
alerts are DISABLED or FIRED. -/
theorem ensure_post_bundle (db : DB) (iid : ℕ) (now : ℤ)
    (r : PlanRungRow) (sid : ℕ)
    (hnd : (db.alerts.map AlertRow.rung_id).Nodup)
    (hnp : getNextPendingRung db iid = some (r, sid)) :
    (∀ a ∈ (ensure_next_rung_alert db iid now).alerts,
      a.instance_id = iid → a.status = AlertStatus.ACTIVE →
      a.rung_id = r.rung_id) ∧
    ((ensure_next_rung_alert db iid now).alerts.filter
      (fun a => a.instance_id = iid ∧
        a.status = AlertStatus.ACTIVE)).length ≤ 1 ∧
    (∀ a ∈ (ensure_next_rung_alert db iid now).alerts,
      a.instance_id = iid → a.rung_id ≠ r.rung_id →
      a.status = AlertStatus.DISABLED ∨ a.status = AlertStatus.FIRED) := by
  have hspec := ensure_spec db iid now r sid hnp
  refine ⟨hspec.1, ?_, hspec.2.2.2⟩
  apply length_le_one_of_nodup_const _ AlertRow.rung_id r.rung_id
  · exact ((List.filter_sublist _).map _).nodup (ensure_rung_ids db iid now hnd)
  · intro a ha
    rw [List.mem_filter] at ha
    obtain ⟨hmem, hcond⟩ := ha
    simp only [decide_eq_true_eq] at hcond
    exact hspec.1 a hmem hcond.1 hcond.2

/-- C4 counterexample: `record_execution` on the last PENDING rung of a
plan leaves the rung's old alert ACTIVE although no PENDING rung remains,
so the ACTIVE alert's rung is not "the lowest-indexed rung still
PENDING" — the claim as stated fails on the code. -/
theorem C4_counterexample :
    (∃ a ∈ (record_execution dbOne 1 5 1 0 9 none).alerts,
      a.instance_id = 1 ∧ a.status = AlertStatus.ACTIVE) ∧
    (∀ r ∈ (record_execution dbOne 1 5 1 0 9 none).rungs,
      r.status ≠ RungStatus.PENDING) := by
  decide

/-- C4 (amended): at most one alerts row exists per rung — each of
`_ensure_next_rung_alert`, `record_execution` and `build_plan` preserves
per-rung uniqueness of alerts — and whenever the operation finds a next
PENDING rung for the (ACTIVE) instance, the instance afterwards has at
most one ACTIVE alert, every ACTIVE alert of the instance is on that
lowest-indexed PENDING rung, and its other alerts are DISABLED or FIRED;
`_ensure_next_rung_alert` is idempotent.  (Executing the final pending
rung leaves the alert table untouched, so an ACTIVE alert may survive on
an EXECUTED rung — the unamended claim's failure.) -/
theorem C4_alert_invariant :
    (∀ (db : DB) (iid : ℕ) (now : ℤ),
      (db.alerts.map AlertRow.rung_id).Nodup →
      ((ensure_next_rung_alert db iid now).alerts.map
        AlertRow.rung_id).Nodup) ∧
    (∀ (db : DB) (rid : ℕ) (p : ℚ) (s : ℤ) (t : ℚ) (ts : ℤ),
      (db.alerts.map AlertRow.rung_id).Nodup →
      ((record_execution db rid p s t ts none).alerts.map
        AlertRow.rung_id).Nodup) ∧
    (∀ (M : MathFns) (db : DB) (sid : ℕ) (window : List BarRow)
        (n max_s0 : ℕ) (alpha min_H max_H : ℚ) (now : ℤ) (db' : DB)
        (iid : ℕ),
      build_plan M db sid window n max_s0 alpha min_H max_H now =
        some (db', iid) →
      (db.alerts.map AlertRow.rung_id).Nodup →
      (db'.alerts.map AlertRow.rung_id).Nodup) ∧
    (∀ (db : DB) (iid : ℕ) (now : ℤ) (r : PlanRungRow) (sid : ℕ),
      (db.alerts.map AlertRow.rung_id).Nodup →
      getNextPendingRung db iid = some (r, sid) →
      r.status = RungStatus.PENDING ∧ r.instance_id = iid ∧
      (∀ r' ∈ db.rungs, r'.instance_id = iid →
        r'.status = RungStatus.PENDING → r.rung_index ≤ r'.rung_index) ∧
      (∀ a ∈ (ensure_next_rung_alert db iid now).alerts,
        a.instance_id = iid → a.status = AlertStatus.ACTIVE →
        a.rung_id = r.rung_id) ∧
      ((ensure_next_rung_alert db iid now).alerts.filter
        (fun a => a.instance_id = iid ∧
          a.status = AlertStatus.ACTIVE)).length ≤ 1 ∧
      (∀ a ∈ (ensure_next_rung_alert db iid now).alerts,
        a.instance_id = iid → a.rung_id ≠ r.rung_id →
        a.status = AlertStatus.DISABLED ∨ a.status = AlertStatus.FIRED)) ∧
    (∀ (db : DB) (iid : ℕ) (t t' : ℤ),
      ensure_next_rung_alert (ensure_next_rung_alert db iid t) iid t' =
        ensure_next_rung_alert db iid t) ∧
    (∀ (db : DB) (rid : ℕ) (p : ℚ) (s : ℤ) (t : ℚ) (ts : ℤ)
        (r0 r' : PlanRungRow) (sid' : ℕ),
      (db.alerts.map AlertRow.rung_id).Nodup →
      (markRungExecuted db rid p s t ts).rungs.find?
        (fun r2 => r2.rung_id = rid) = some r0 →
      getNextPendingRung (markRungExecuted db rid p s t ts)
        r0.instance_id = some (r', sid') →
      (∀ a ∈ (record_execution db rid p s t ts none).alerts,
        a.instance_id = r0.instance_id → a.status = AlertStatus.ACTIVE →
        a.rung_id = r'.rung_id) ∧
      ((record_execution db rid p s t ts none).alerts.filter
        (fun a => a.instance_id = r0.instance_id ∧
          a.status = AlertStatus.ACTIVE)).length ≤ 1) ∧
    (∀ (M : MathFns) (db : DB) (sid : ℕ) (window : List BarRow)
        (n max_s0 : ℕ) (alpha min_H max_H : ℚ) (now : ℤ) (db' : DB)
        (iid : ℕ) (r' : PlanRungRow) (sid' : ℕ),
      build_plan M db sid window n max_s0 alpha min_H max_H now =
        some (db', iid) →
      (db.alerts.map AlertRow.rung_id).Nodup →
      getNextPendingRung db' iid = some (r', sid') →
      (∀ a ∈ db'.alerts, a.instance_id = iid →
        a.status = AlertStatus.ACTIVE → a.rung_id = r'.rung_id) ∧
      (db'.alerts.filter (fun a => a.instance_id = iid ∧
        a.status = AlertStatus.ACTIVE)).length ≤ 1) := by
  refine ⟨ensure_rung_ids, record_execution_rung_ids, ?_, ?_, ?_, ?_, ?_⟩
  · intro M db sid window n max_s0 alpha min_H max_H now db' iid hbp hnd
    obtain ⟨plan, _, hdb', _⟩ :=
      build_plan_some_inv M db sid window n max_s0 alpha min_H max_H now
        db' iid hbp
    rw [hdb', insertPlanInstance_eq]
    exact ensure_rung_ids _ _ _
      (by rw [insertPlanBase_alerts]; exact hnd)
  · intro db iid now r sid hnd hnp
    have hsound := getNextPendingRung_sound db iid r sid hnp
    have hbundle := ensure_post_bundle db iid now r sid hnd hnp
    exact ⟨hsound.2.2.1, hsound.2.1, hsound.2.2.2, hbundle.1,
      hbundle.2.1, hbundle.2.2⟩
  · exact ensure_idempotent
  · intro db rid p s t ts r0 r' sid' hnd hfind hnp
    rw [record_execution_eq_ensure db rid p s t ts r0 hfind]
    have hnd2 : ((markRungExecuted db rid p s t ts).alerts.map
        AlertRow.rung_id).Nodup := by
      rw [markRungExecuted_alerts]
      exact hnd
    have hbundle := ensure_post_bundle _ _ ts r' sid' hnd2 hnp
    exact ⟨hbundle.1, hbundle.2.1⟩
  · intro M db sid window n max_s0 alpha min_H max_H now db' iid r' sid'
      hbp hnd hnp
    obtain ⟨plan, _, hdb', hiid⟩ :=
      build_plan_some_inv M db sid window n max_s0 alpha min_H max_H now
        db' iid hbp
    have hiid2 : (insertPlanInstance db sid plan
        ((window.map BarRow.close).getLastD 0) now).2 = iid := hiid.symm
    rw [hdb', insertPlanInstance_eq, hiid2] at hnp ⊢
    have hnd2 : ((insertPlanBase db sid plan
        ((window.map BarRow.close).getLastD 0) now).alerts.map
        AlertRow.rung_id).Nodup := by
      rw [insertPlanBase_alerts]
      exact hnd
    have hnpBase : getNextPendingRung (insertPlanBase db sid plan
        ((window.map BarRow.close).getLastD 0) now) iid =
        some (r', sid') := by
      rw [← getNextPendingRung_congr _ _ iid
        (ensure_preserves_rungs _ _ _) (ensure_preserves_instances _ _ _)]
      exact hnp
    have hbundle := ensure_post_bundle _ iid now r' sid' hnd2 hnpBase
    exact ⟨hbundle.1, hbundle.2.1⟩

theorem C4_alert_invariant_witness :
    ((dbOne.alerts.map AlertRow.rung_id).Nodup ∧
      getNextPendingRung dbOne 1 = some (rungOne, 1)) ∧
    (rungOne.status = RungStatus.PENDING ∧ rungOne.instance_id = 1 ∧
      (∀ r' ∈ dbOne.rungs, r'.instance_id = 1 →
        r'.status = RungStatus.PENDING →
        rungOne.rung_index ≤ r'.rung_index) ∧
      (∀ a ∈ (ensure_next_rung_alert dbOne 1 3).alerts,
        a.instance_id = 1 → a.status = AlertStatus.ACTIVE →
        a.rung_id = rungOne.rung_id) ∧
      ((ensure_next_rung_alert dbOne 1 3).alerts.filter
        (fun a => a.instance_id = 1 ∧
          a.status = AlertStatus.ACTIVE)).length ≤ 1 ∧
      (∀ a ∈ (ensure_next_rung_alert dbOne 1 3).alerts,
        a.instance_id = 1 → a.rung_id ≠ rungOne.rung_id →
        a.status = AlertStatus.DISABLED ∨ a.status = AlertStatus.FIRED)) :=
  ⟨⟨by norm_num [dbOne, alertOne],
    by norm_num [getNextPendingRung, instanceActive, minByRungIndex, dbOne,
      rungOne, instOne, List.filter, List.find?, List.any]⟩,
   C4_alert_invariant.2.2.2.1 dbOne 1 3 rungOne 1
    (by norm_num [dbOne, alertOne])
    (by norm_num [getNextPendingRung, instanceActive, minByRungIndex, dbOne,
      rungOne, instOne, List.filter, List.find?, List.any])⟩

/-- C6: `record_execution(rung_id, executed_price, shares_sold,
tax_paid)` updates the rung — status EXECUTED, executed fields set,
`net_harvest_actual = executed_price * shares_sold - tax_paid` — exactly
when the rung's status is TRIGGERED or PENDING; on an already-EXECUTED
rung it is silently a no-op leaving the rung unchanged; afterwards the
alert for the rung's instance is refreshed via
`_ensure_next_rung_alert`. -/
theorem C6_record_execution (db : DB) (rid : ℕ) (p : ℚ) (s : ℤ) (t : ℚ)
    (ts : ℤ) :
    ((record_execution db rid p s t ts none).rungs =
      db.rungs.map (execUpdate rid p s t ts)) ∧
    (∀ r ∈ db.rungs, r.rung_id = rid →
      (r.status = RungStatus.TRIGGERED ∨ r.status = RungStatus.PENDING) →
      { r with
        status := RungStatus.EXECUTED
        executed_at := some ts
        executed_price := some p
        shares_sold_actual := some s
        tax_paid_actual := some t
        net_harvest_actual := some (p * (s : ℚ) - t) } ∈
        (record_execution db rid p s t ts none).rungs) ∧
    (∀ r ∈ db.rungs, r.rung_id = rid → r.status = RungStatus.EXECUTED →
      r ∈ (record_execution db rid p s t ts none).rungs) ∧
    (∀ r ∈ db.rungs, r.rung_id ≠ rid →
      r ∈ (record_execution db rid p s t ts none).rungs) ∧
    (∀ r0 : PlanRungRow,
      (markRungExecuted db rid p s t ts).rungs.find?
        (fun r2 => r2.rung_id = rid) = some r0 →
      record_execution db rid p s t ts none =
        ensure_next_rung_alert (markRungExecuted db rid p s t ts)
          r0.instance_id ts) := by
  have hrungs : (record_execution db rid p s t ts none).rungs =
      (markRungExecuted db rid p s t ts).rungs := by
    rcases hfind : (markRungExecuted db rid p s t ts).rungs.find?
        (fun r2 => r2.rung_id = rid) with _ | r0
    · rw [record_execution_no_rung db rid p s t ts hfind]
    · rw [record_execution_eq_ensure db rid p s t ts r0 hfind,
        ensure_preserves_rungs]
  refine ⟨hrungs, ?_, ?_, ?_,
    fun r0 h => record_execution_eq_ensure _ _ _ _ _ _ r0 h⟩
  · intro r hr hrid hst
    have hupd : execUpdate rid p s t ts r = { r with
        status := RungStatus.EXECUTED
        executed_at := some ts
        executed_price := some p
        shares_sold_actual := some s
        tax_paid_actual := some t
        net_harvest_actual := some (p * (s : ℚ) - t) } := by
      unfold execUpdate
      rw [if_pos ⟨hrid, hst⟩]
    rw [hrungs, ← hupd]
    exact List.mem_map_of_mem _ hr
  · intro r hr hrid hst
    have hupd : execUpdate rid p s t ts r = r := by
      unfold execUpdate
      rw [if_neg]
      rintro ⟨_, hTP | hTP⟩ <;> rw [hst] at hTP <;> exact absurd hTP (by simp)
    rw [hrungs]
    exact hupd ▸ List.mem_map_of_mem _ hr
  · intro r hr hrid
    have hupd : execUpdate rid p s t ts r = r := by
      unfold execUpdate
      rw [if_neg]
      rintro ⟨h1, _⟩
      exact hrid h1
    rw [hrungs]
    exact hupd ▸ List.mem_map_of_mem _ hr

theorem C6_record_execution_witness :
    (rungOne ∈ dbOne.rungs ∧ rungOne.rung_id = 1 ∧
      (rungOne.status = RungStatus.TRIGGERED ∨
        rungOne.status = RungStatus.PENDING)) ∧
    { rungOne with
      status := RungStatus.EXECUTED
      executed_at := some 9
      executed_price := some 5
      shares_sold_actual := some 1
      tax_paid_actual := some 0
      net_harvest_actual := some (5 * ((1 : ℤ) : ℚ) - 0) } ∈
      (record_execution dbOne 1 5 1 0 9 none).rungs :=
  ⟨⟨by norm_num [dbOne], rfl, Or.inr rfl⟩,
   (C6_record_execution dbOne 1 5 1 0 9).2.1 rungOne
    (by norm_num [dbOne]) rfl (Or.inr rfl)⟩

/-! ## Scan path lemmas -/

theorem markAlertFired_rungs (db : DB) (aid : ℕ) (p : ℚ) (ts : ℤ) :
    (markAlertFired db aid p ts).rungs = db.rungs := rfl

theorem markAlertFired_instances (db : DB) (aid : ℕ) (p : ℚ) (ts : ℤ) :
    (markAlertFired db aid p ts).instances = db.instances := rfl

theorem filter_map_eq {α : Type} (p : α → Bool) (f : α → α) (l : List α)
    (h1 : ∀ x ∈ l, p x = true → f x = x)
    (h2 : ∀ x ∈ l, p (f x) = p x) :
    (l.map f).filter p = l.filter p := by
  induction l with
  | nil => rfl
  | cons x xs ih =>
      rw [List.map_cons, List.filter_cons, List.filter_cons]
      rcases hpx : p x with _ | _
      · rw [h2 x (by simp), hpx]
        exact ih (fun y hy => h1 y (List.mem_cons_of_mem _ hy))
          (fun y hy => h2 y (List.mem_cons_of_mem _ hy))
      · rw [h2 x (by simp), hpx, h1 x (by simp) hpx]
        rw [ih (fun y hy => h1 y (List.mem_cons_of_mem _ hy))
          (fun y hy => h2 y (List.mem_cons_of_mem _ hy))]

/-- Case inversion for one `scan_and_fire_alerts` step: either nothing
fires and the store is untouched, or the instance's next pending rung
met its target and the store changed exactly by the fired alert and the
TRIGGERED rung. -/
theorem scanStep_inv (poll : ℕ → Option ℚ) (ts : ℤ) (db : DB)
    (i : PlanInstanceRow) :
    scanStep poll ts db i = (db, none) ∨
    ∃ r sid P, getNextPendingRung db i.instance_id = some (r, sid) ∧
      poll sid = some P ∧ r.target_price ≤ P ∧
      (scanStep poll ts db i).1.rungs =
        db.rungs.map (trigUpdate r.rung_id P ts) ∧
      (scanStep poll ts db i).1.instances = db.instances ∧
      (scanStep poll ts db i).2 =
        some ⟨sid, r.shares_sold_planned, P, r.target_price,
          i.instance_id, r.rung_id⟩ := by
  unfold scanStep
  rcases hnp : getNextPendingRung db i.instance_id with _ | ⟨r, sid⟩
  · exact Or.inl rfl
  dsimp only
  rcases hpoll : poll sid with _ | P
  · exact Or.inl rfl
  dsimp only
  by_cases hlt : P < r.target_price
  · rw [if_pos hlt]
    exact Or.inl rfl
  rw [if_neg hlt]
  refine Or.inr ⟨r, sid, P, rfl, hpoll, not_lt.mp hlt, ?_, ?_, rfl⟩
  all_goals
    rcases hal : getActiveAlertForRung db r.rung_id with _ | a <;> rfl

/-- A qualifying instance produces its hit in one scan step. -/
theorem scanStep_fires (poll : ℕ → Option ℚ) (ts : ℤ) (db : DB)
    (i : PlanInstanceRow) (r : PlanRungRow) (sid : ℕ) (P : ℚ)
    (hnp : getNextPendingRung db i.instance_id = some (r, sid))
    (hpoll : poll sid = some P) (hle : r.target_price ≤ P) :
    (scanStep poll ts db i).2 =
      some ⟨sid, r.shares_sold_planned, P, r.target_price,
        i.instance_id, r.rung_id⟩ := by
  unfold scanStep
  rw [hnp]
  dsimp only
  rw [hpoll]
  dsimp only
  rw [if_neg (not_lt.mpr hle)]

theorem scanStep_instances (poll : ℕ → Option ℚ) (ts : ℤ) (db : DB)
    (i : PlanInstanceRow) :
    (scanStep poll ts db i).1.instances = db.instances := by
  rcases scanStep_inv poll ts db i with h | ⟨_, _, _, _, _, _, _, hinst, _⟩
  · rw [h]
  · exact hinst

theorem scanStep_rung_ids (poll : ℕ → Option ℚ) (ts : ℤ) (db : DB)
    (i : PlanInstanceRow)
    (hnd : (db.rungs.map PlanRungRow.rung_id).Nodup) :
    ((scanStep poll ts db i).1.rungs.map PlanRungRow.rung_id).Nodup := by
  rcases scanStep_inv poll ts db i with h | ⟨r, _, P, _, _, _, hrungs, _, _⟩
  · rw [h]
    exact hnd
  · rw [hrungs, List.map_map]
    have : db.rungs.map (PlanRungRow.rung_id ∘ trigUpdate r.rung_id P ts) =
        db.rungs.map PlanRungRow.rung_id := by
      refine List.map_congr_left ?_
      intro x _
      show (trigUpdate r.rung_id P ts x).rung_id = x.rung_id
      unfold trigUpdate
      split <;> rfl
    rw [this]
    exact hnd

/-- A scan step over one instance leaves every other instance's pending
rungs untouched (given globally unique rung ids). -/
theorem scanStep_rung_frame (poll : ℕ → Option ℚ) (ts : ℤ) (db : DB)
    (i : PlanInstanceRow) (iid : ℕ)
    (hnd : (db.rungs.map PlanRungRow.rung_id).Nodup)
    (hne : iid ≠ i.instance_id) :
    (scanStep poll ts db i).1.rungs.filter
      (fun r => r.instance_id = iid ∧ r.status = RungStatus.PENDING) =
    db.rungs.filter
      (fun r => r.instance_id = iid ∧ r.status = RungStatus.PENDING) := by
  rcases scanStep_inv poll ts db i with h |
    ⟨r, sid, P, hnp, _, _, hrungs, _, _⟩
  · rw [h]
  rw [hrungs]
  have hsound := getNextPendingRung_sound db i.instance_id r sid hnp
  refine filter_map_eq _ _ _ ?_ ?_
  · intro x hx hpx
    simp only [decide_eq_true_eq] at hpx
    unfold trigUpdate
    rw [if_neg]
    rintro ⟨hid, _⟩
    have hxr : x = r :=
      List.inj_on_of_nodup_map hnd hx hsound.1 hid
    rw [hxr] at hpx
    exact hne (hpx.1 ▸ hsound.2.1)
  · intro x hx
    by_cases hcond : x.rung_id = r.rung_id ∧ x.status = RungStatus.PENDING
    · have hxr : x = r :=
        List.inj_on_of_nodup_map hnd hx hsound.1 hcond.1
      have hinstx : x.instance_id = i.instance_id := hxr ▸ hsound.2.1
      have hxne : ¬ x.instance_id = iid := by
        rw [hinstx]
        exact fun hcc => hne hcc.symm
      unfold trigUpdate
      rw [if_pos hcond]
      simp [hxne]
    · unfold trigUpdate
      rw [if_neg hcond]

theorem getNextPendingRung_frame (db1 db0 : DB) (iid : ℕ)
    (hi : db1.instances = db0.instances)
    (hf : db1.rungs.filter
        (fun r => r.instance_id = iid ∧ r.status = RungStatus.PENDING) =
      db0.rungs.filter
        (fun r => r.instance_id = iid ∧ r.status = RungStatus.PENDING)) :
    getNextPendingRung db1 iid = getNextPendingRung db0 iid := by
  unfold getNextPendingRung instanceActive
  rw [hi, hf]

theorem scanFold_prefix (poll : ℕ → Option ℚ) (ts : ℤ) :
    ∀ (todo : List PlanInstanceRow) (acc : DB × List HarvestHit)
      (e : HarvestHit), e ∈ acc.2 →
      e ∈ (todo.foldl (scanFold poll ts) acc).2 := by
  intro todo
  induction todo with
  | nil =>
      intro acc e he
      simpa using he
  | cons x xs ih =>
      intro acc e he
      rw [List.foldl_cons]
      apply ih
      unfold scanFold
      exact List.mem_append_left _ he

theorem scan_fold_sound (poll : ℕ → Option ℚ) (ts : ℤ) :
    ∀ (todo : List PlanInstanceRow) (acc : DB × List HarvestHit),
      (∀ e ∈ acc.2, poll e.symbol_id = some e.current_price ∧
        e.target_price ≤ e.current_price) →
      ∀ e ∈ (todo.foldl (scanFold poll ts) acc).2,
        poll e.symbol_id = some e.current_price ∧
        e.target_price ≤ e.current_price := by
  intro todo
  induction todo with
  | nil =>
      intro acc hacc e he
      exact hacc e (by simpa using he)
  | cons x xs ih =>
      intro acc hacc e he
      rw [List.foldl_cons] at he
      refine ih _ ?_ e he
      intro e' he'
      unfold scanFold at he'
      rcases List.mem_append.mp he' with h | h
      · exact hacc e' h
      · rcases scanStep_inv poll ts acc.1 x with hstep |
          ⟨r, sid, P, hnp, hpoll, hle, _, _, hsome⟩
        · rw [hstep] at h
          simp at h
        · rw [hsome] at h
          simp only [Option.toList_some, List.mem_singleton] at h
          subst h
          exact ⟨hpoll, hle⟩

theorem scan_fold_complete (poll : ℕ → Option ℚ) (ts : ℤ) :
    ∀ (todo : List PlanInstanceRow) (acc : DB × List HarvestHit) (db0 : DB),
      acc.1.instances = db0.instances →
      (acc.1.rungs.map PlanRungRow.rung_id).Nodup →
      (todo.map PlanInstanceRow.instance_id).Nodup →
      (∀ j ∈ todo, acc.1.rungs.filter
          (fun r => r.instance_id = j.instance_id ∧
            r.status = RungStatus.PENDING) =
        db0.rungs.filter
          (fun r => r.instance_id = j.instance_id ∧
            r.status = RungStatus.PENDING)) →
      ∀ i ∈ todo, ∀ (r : PlanRungRow) (sid : ℕ) (P : ℚ),
        getNextPendingRung db0 i.instance_id = some (r, sid) →
        poll sid = some P → r.target_price ≤ P →
        (⟨sid, r.shares_sold_planned, P, r.target_price, i.instance_id,
          r.rung_id⟩ : HarvestHit) ∈
        (todo.foldl (scanFold poll ts) acc).2 := by
  intro todo
  induction todo with
  | nil =>
      intro acc db0 _ _ _ _ i hi
      simp at hi
  | cons x xs ih =>
      intro acc db0 hinst hndr hndt hfilter i hi r sid P hnp hpoll hle
      rw [List.foldl_cons]
      rcases List.mem_cons.mp hi with rfl | hi
      · have hnpacc : getNextPendingRung acc.1 i.instance_id =
            some (r, sid) := by
          rw [getNextPendingRung_frame acc.1 db0 i.instance_id hinst
            (hfilter i (List.mem_cons_self _ _))]
          exact hnp
        have hfires := scanStep_fires poll ts acc.1 i r sid P hnpacc
          hpoll hle
        apply scanFold_prefix
        unfold scanFold
        rw [hfires]
        exact List.mem_append_right _ (by simp)
      · rw [List.map_cons, List.nodup_cons] at hndt
        refine ih (scanFold poll ts acc x) db0 ?_ ?_ hndt.2 ?_ i hi r sid P
          hnp hpoll hle
        · show (scanStep poll ts acc.1 x).1.instances = db0.instances
          rw [scanStep_instances]
          exact hinst
        · exact scanStep_rung_ids poll ts acc.1 x hndr
        · intro j hj
          have hne : j.instance_id ≠ x.instance_id := by
            intro hcc
            exact hndt.1 (hcc ▸ List.mem_map_of_mem _ hj)
          show (scanStep poll ts acc.1 x).1.rungs.filter _ = _
          rw [scanStep_rung_frame poll ts acc.1 x j.instance_id hndr hne]
          exact hfilter j (List.mem_cons_of_mem _ hj)

/-- C7: both scan paths compare the polled price against the next
pending rung's target with a closed `≥`: for every ACTIVE plan whose
earliest PENDING rung has target `T` and whose poll returns `P`, the rung
is reported/fired exactly when `T ≤ P` — a price equal to the target
triggers. -/
theorem C7_closed_threshold :
    (∀ (db : DB) (poll : ℕ → Option ℚ) (e : HarvestHit),
      e ∈ symbols_at_harvest_points db poll →
      ∃ i ∈ listActivePlans db, ∃ r : PlanRungRow,
        getNextPendingRung db i.instance_id = some (r, e.symbol_id) ∧
        r.rung_id = e.rung_id ∧ r.target_price = e.target_price ∧
        poll e.symbol_id = some e.current_price ∧
        e.target_price ≤ e.current_price) ∧
    (∀ (db : DB) (poll : ℕ → Option ℚ) (i : PlanInstanceRow)
        (r : PlanRungRow) (sid : ℕ) (P : ℚ),
      i ∈ db.instances → i.status = InstStatus.ACTIVE →
      getNextPendingRung db i.instance_id = some (r, sid) →
      poll sid = some P → r.target_price ≤ P →
      (⟨sid, r.shares_sold_planned, P, r.target_price, i.instance_id,
        r.rung_id⟩ : HarvestHit) ∈ symbols_at_harvest_points db poll) ∧
    (∀ (db : DB) (poll : ℕ → Option ℚ) (ts : ℤ) (e : HarvestHit),
      e ∈ (scan_and_fire_alerts db poll ts).2 →
      poll e.symbol_id = some e.current_price ∧
      e.target_price ≤ e.current_price) ∧
    (∀ (db : DB) (poll : ℕ → Option ℚ) (ts : ℤ) (i : PlanInstanceRow)
        (r : PlanRungRow) (sid : ℕ) (P : ℚ),
      (db.instances.map PlanInstanceRow.instance_id).Nodup →
      (db.rungs.map PlanRungRow.rung_id).Nodup →
      i ∈ db.instances → i.status = InstStatus.ACTIVE →
      getNextPendingRung db i.instance_id = some (r, sid) →
      poll sid = some P → r.target_price ≤ P →
      (⟨sid, r.shares_sold_planned, P, r.target_price, i.instance_id,
        r.rung_id⟩ : HarvestHit) ∈ (scan_and_fire_alerts db poll ts).2) := by
  refine ⟨?_, ?_, ?_, ?_⟩
  · intro db poll e he
    unfold symbols_at_harvest_points at he
    rw [List.mem_filterMap] at he
    obtain ⟨i, hi, hg⟩ := he
    rcases hnp : getNextPendingRung db i.instance_id with _ | ⟨r, sid⟩
    · rw [hnp] at hg
      exact absurd hg (by simp)
    rw [hnp] at hg
    dsimp only at hg
    rcases hpoll : poll sid with _ | P
    · rw [hpoll] at hg
      exact absurd hg (by simp)
    rw [hpoll] at hg
    dsimp only at hg
    by_cases hge : P ≥ r.target_price
    · rw [if_pos hge] at hg
      simp only [Option.some.injEq] at hg
      refine ⟨i, hi, r, ?_, ?_, ?_, ?_, ?_⟩ <;> rw [← hg] <;>
        first
          | exact hnp
          | rfl
          | exact hpoll
          | exact hge
    · rw [if_neg hge] at hg
      exact absurd hg (by simp)
  · intro db poll i r sid P hi hact hnp hpoll hle
    unfold symbols_at_harvest_points
    rw [List.mem_filterMap]
    refine ⟨i, ?_, ?_⟩
    · unfold listActivePlans
      rw [List.mem_filter]
      exact ⟨hi, by simp [hact]⟩
    · rw [hnp]
      dsimp only
      rw [hpoll]
      dsimp only
      rw [if_pos hle]
  · intro db poll ts e he
    exact scan_fold_sound poll ts (listActivePlans db) (db, [])
      (by intro e' he'; simp at he') e he
  · intro db poll ts i r sid P hndi hndr hi hact hnp hpoll hle
    unfold scan_and_fire_alerts
    refine scan_fold_complete poll ts (listActivePlans db) (db, []) db rfl
      hndr ?_ (fun j _ => rfl) i ?_ r sid P hnp hpoll hle
    · exact ((List.filter_sublist _).map _).nodup hndi
    · unfold listActivePlans
      rw [List.mem_filter]
      exact ⟨hi, by simp [hact]⟩

theorem C7_closed_threshold_witness :
    (instOne ∈ dbOne.instances ∧ instOne.status = InstStatus.ACTIVE ∧
      getNextPendingRung dbOne instOne.instance_id = some (rungOne, 1) ∧
      (fun _ : ℕ => some ((21 : ℚ)/5)) 1 = some ((21 : ℚ)/5) ∧
      rungOne.target_price ≤ (21 : ℚ)/5) ∧
    (⟨1, rungOne.shares_sold_planned, (21 : ℚ)/5, rungOne.target_price,
      instOne.instance_id, rungOne.rung_id⟩ : HarvestHit) ∈
      symbols_at_harvest_points dbOne (fun _ => some ((21 : ℚ)/5)) :=
  ⟨⟨by norm_num [dbOne], rfl,
    by norm_num [getNextPendingRung, instanceActive, minByRungIndex, dbOne,
      rungOne, instOne, List.filter, List.find?, List.any],
    rfl, by norm_num [rungOne]⟩,
   C7_closed_threshold.2.1 dbOne (fun _ => some ((21 : ℚ)/5)) instOne
    rungOne 1 ((21 : ℚ)/5) (by norm_num [dbOne]) rfl
    (by norm_num [getNextPendingRung, instanceActive, minByRungIndex, dbOne,
      rungOne, instOne, List.filter, List.find?, List.any])
    rfl (by norm_num [rungOne])⟩

/-- C3: after `build_plan`'s instance insertion for a symbol that already
had an ACTIVE plan instance, exactly one ACTIVE instance exists for that
symbol — the freshly inserted one — the prior instance's status is
SUPERSEDED, and the new instance's `supersedes_instance_id` is the prior
instance's id.  (The model applies supersession and insertion as one
state transformer, mirroring the single transaction.) -/
theorem C3_supersession (db : DB) (sid : ℕ) (plan : ForwardPlan)
    (pa : ℚ) (now : ℤ) (prior : PlanInstanceRow)
    (hprior : db.instances.filter
      (fun i => i.symbol_id = sid ∧ i.status = InstStatus.ACTIVE) =
      [prior]) :
    ((insertPlanInstance db sid plan pa now).1.instances.filter
      (fun i => i.symbol_id = sid ∧ i.status = InstStatus.ACTIVE)).map
        PlanInstanceRow.instance_id =
      [(insertPlanInstance db sid plan pa now).2] ∧
    { prior with status := InstStatus.SUPERSEDED } ∈
      (insertPlanInstance db sid plan pa now).1.instances ∧
    (∃ row ∈ (insertPlanInstance db sid plan pa now).1.instances,
      row.instance_id = (insertPlanInstance db sid plan pa now).2 ∧
      row.status = InstStatus.ACTIVE ∧
      row.supersedes_instance_id = some prior.instance_id) := by
  have hpick : pickPrevActive db sid = some prior := by
    unfold pickPrevActive
    rw [hprior]
    rfl
  have hpriormem : prior ∈ db.instances ∧ prior.symbol_id = sid ∧
      prior.status = InstStatus.ACTIVE := by
    have : prior ∈ db.instances.filter
        (fun i => i.symbol_id = sid ∧ i.status = InstStatus.ACTIVE) := by
      rw [hprior]
      simp
    rw [List.mem_filter] at this
    simp only [decide_eq_true_eq] at this
    exact ⟨this.1, this.2.1, this.2.2⟩
  have hinsts : (insertPlanInstance db sid plan pa now).1.instances =
      supersededInstances db sid ++ [newPlanRow db sid plan pa now] := by
    rw [insertPlanInstance_eq, ensure_preserves_instances]
    rfl
  have hsup : supersededInstances db sid =
      db.instances.map (fun i =>
        if i.instance_id = prior.instance_id then
          { i with status := InstStatus.SUPERSEDED }
        else i) := by
    unfold supersededInstances
    rw [hpick]
  refine ⟨?_, ?_, ?_⟩
  · rw [hinsts, List.filter_append]
    have hnil : (supersededInstances db sid).filter
        (fun i => i.symbol_id = sid ∧ i.status = InstStatus.ACTIVE) = [] := by
      rw [List.filter_eq_nil_iff]
      intro x hx
      rw [hsup, List.mem_map] at hx
      obtain ⟨j, hj, hjx⟩ := hx
      by_cases hjp : j.instance_id = prior.instance_id
      · rw [if_pos hjp] at hjx
        rw [← hjx]
        simp
      · rw [if_neg hjp] at hjx
        rw [← hjx]
        intro hcond
        rw [decide_eq_true_eq] at hcond
        have hmem2 : j ∈ db.instances.filter
            (fun i => i.symbol_id = sid ∧ i.status = InstStatus.ACTIVE) := by
          rw [List.mem_filter]
          exact ⟨hj, by simp [hcond.1, hcond.2]⟩
        rw [hprior, List.mem_singleton] at hmem2
        exact hjp (by rw [hmem2])
    rw [hnil, List.nil_append]
    have : (([newPlanRow db sid plan pa now]).filter
        (fun i => i.symbol_id = sid ∧ i.status = InstStatus.ACTIVE)) =
        [newPlanRow db sid plan pa now] := by
      rw [List.filter_cons]
      simp [newPlanRow]
    rw [this]
    rfl
  · rw [hinsts]
    refine List.mem_append_left _ ?_
    rw [hsup]
    have : ({ prior with status := InstStatus.SUPERSEDED } :
        PlanInstanceRow) =
        (fun i : PlanInstanceRow =>
          if i.instance_id = prior.instance_id then
            { i with status := InstStatus.SUPERSEDED }
          else i) prior := by
      show _ = if prior.instance_id = prior.instance_id then _ else _
      rw [if_pos rfl]
    rw [this]
    exact List.mem_map_of_mem _ hpriormem.1
  · refine ⟨newPlanRow db sid plan pa now, ?_, rfl, rfl, ?_⟩
    · rw [hinsts]
      exact List.mem_append_right _ (by simp)
    · show (pickPrevActive db sid).map PlanInstanceRow.instance_id =
        some prior.instance_id
      rw [hpick]
      rfl

theorem C3_supersession_witness :
    (dbOne.instances.filter
      (fun i => i.symbol_id = 1 ∧ i.status = InstStatus.ACTIVE) =
      [instOne]) ∧
    (((insertPlanInstance dbOne 1 ⟨21, 4, 0, 1/20, none, 84, 1, []⟩ 4
        5).1.instances.filter
      (fun i => i.symbol_id = 1 ∧ i.status = InstStatus.ACTIVE)).map
        PlanInstanceRow.instance_id =
      [(insertPlanInstance dbOne 1 ⟨21, 4, 0, 1/20, none, 84, 1, []⟩ 4
        5).2] ∧
    { instOne with status := InstStatus.SUPERSEDED } ∈
      (insertPlanInstance dbOne 1 ⟨21, 4, 0, 1/20, none, 84, 1, []⟩ 4
        5).1.instances) :=
  ⟨by norm_num [dbOne, instOne, List.filter],
   ⟨(C3_supersession dbOne 1 ⟨21, 4, 0, 1/20, none, 84, 1, []⟩ 4 5 instOne
      (by norm_num [dbOne, instOne, List.filter])).1,
    (C3_supersession dbOne 1 ⟨21, 4, 0, 1/20, none, 84, 1, []⟩ 4 5 instOne
      (by norm_num [dbOne, instOne, List.filter])).2.1⟩⟩

theorem purgeMatch_status (sym : Option ℕ) (otd : Option ℤ) (now : ℤ)
    (i : PlanInstanceRow) (h : purgeMatch sym otd now i = true) :
    i.status = InstStatus.SUPERSEDED := by
  unfold purgeMatch at h
  simp only [Bool.and_eq_true, decide_eq_true_eq] at h
  exact h.1.1

theorem active_not_removed (db : DB) (sym : Option ℕ) (otd : Option ℤ)
    (now : ℤ)
    (hndi : (db.instances.map PlanInstanceRow.instance_id).Nodup)
    (i : PlanInstanceRow) (hi : i ∈ db.instances)
    (hact : i.status = InstStatus.ACTIVE) :
    i.instance_id ∉ purgeRemovedIds db sym otd now := by
  intro hmem
  unfold purgeRemovedIds at hmem
  rw [List.mem_map] at hmem
  obtain ⟨j, hj, hij⟩ := hmem
  rw [List.mem_filter] at hj
  have hji : j = i := List.inj_on_of_nodup_map hndi hj.1 hi hij
  have hst := purgeMatch_status sym otd now j hj.2
  rw [hji, hact] at hst
  exact absurd hst (by simp)

theorem unmatched_not_removed (db : DB) (sym : Option ℕ) (otd : Option ℤ)
    (now : ℤ)
    (hndi : (db.instances.map PlanInstanceRow.instance_id).Nodup)
    (i : PlanInstanceRow) (hi : i ∈ db.instances)
    (hnm : purgeMatch sym otd now i = false) :
    i.instance_id ∉ purgeRemovedIds db sym otd now := by
  intro hmem
  unfold purgeRemovedIds at hmem
  rw [List.mem_map] at hmem
  obtain ⟨j, hj, hij⟩ := hmem
  rw [List.mem_filter] at hj
  have hji : j = i := List.inj_on_of_nodup_map hndi hj.1 hi hij
  have ht := hj.2
  rw [hji, hnm] at ht
  exact absurd ht (by simp)

/-- C5: a dry-run purge mutates nothing and reports the same matched
count as the immediately following non-dry run; the non-dry run deletes
exactly the SUPERSEDED instances matching the filters together with
their rungs and alerts (the cascade): matching instances lose their
rows, rungs and alerts, ACTIVE instances keep theirs, every instance
not matching the filters (in particular a SUPERSEDED one excluded by
the symbol or age filter) keeps its row, rungs and alerts, and no row
appears in the result that was not already in the store. -/
theorem C5_purge_superseded (db : DB) (sym : Option ℕ) (otd : Option ℤ)
    (now : ℤ)
    (hndi : (db.instances.map PlanInstanceRow.instance_id).Nodup)
    (hcons : ∀ a ∈ db.alerts, ∀ r ∈ db.rungs, a.rung_id = r.rung_id →
      a.instance_id = r.instance_id) :
    ((purge_superseded_plans db sym otd now true).2 = db) ∧
    ((purge_superseded_plans db sym otd now true).1 =
      (purge_superseded_plans db sym otd now false).1) ∧
    (∀ i ∈ db.instances, purgeMatch sym otd now i = true →
      i ∉ (purge_superseded_plans db sym otd now false).2.instances ∧
      (∀ r ∈ db.rungs, r.instance_id = i.instance_id →
        r ∉ (purge_superseded_plans db sym otd now false).2.rungs) ∧
      (∀ a ∈ db.alerts, a.instance_id = i.instance_id →
        a ∉ (purge_superseded_plans db sym otd now false).2.alerts)) ∧
    (∀ i ∈ db.instances, i.status = InstStatus.ACTIVE →
      i ∈ (purge_superseded_plans db sym otd now false).2.instances ∧
      (∀ r ∈ db.rungs, r.instance_id = i.instance_id →
        r ∈ (purge_superseded_plans db sym otd now false).2.rungs) ∧
      (∀ a ∈ db.alerts, a.instance_id = i.instance_id →
        a ∈ (purge_superseded_plans db sym otd now false).2.alerts)) ∧
    (∀ i ∈ db.instances, purgeMatch sym otd now i = false →
      i ∈ (purge_superseded_plans db sym otd now false).2.instances ∧
      (∀ r ∈ db.rungs, r.instance_id = i.instance_id →
        r ∈ (purge_superseded_plans db sym otd now false).2.rungs) ∧
      (∀ a ∈ db.alerts, a.instance_id = i.instance_id →
        a ∈ (purge_superseded_plans db sym otd now false).2.alerts)) ∧
    ((∀ i ∈ (purge_superseded_plans db sym otd now false).2.instances,
        i ∈ db.instances) ∧
      (∀ r ∈ (purge_superseded_plans db sym otd now false).2.rungs,
        r ∈ db.rungs) ∧
      (∀ a ∈ (purge_superseded_plans db sym otd now false).2.alerts,
        a ∈ db.alerts)) := by
  refine ⟨?_, ?_, ?_, ?_, ?_, ?_⟩
  · unfold purge_superseded_plans
    rw [if_pos (Or.inl rfl)]
  · unfold purge_superseded_plans
    rw [if_pos (Or.inl rfl)]
    by_cases hm : (db.instances.filter (purgeMatch sym otd now)).length = 0
    · rw [if_pos (Or.inr hm)]
    · rw [if_neg (by simp [hm])]
  · intro i hi hmatch
    have himem : i ∈ db.instances.filter (purgeMatch sym otd now) := by
      rw [List.mem_filter]
      exact ⟨hi, hmatch⟩
    have hm : (db.instances.filter (purgeMatch sym otd now)).length ≠ 0 := by
      intro h0
      rw [List.length_eq_zero] at h0
      rw [h0] at himem
      simp at himem
    have hres : (purge_superseded_plans db sym otd now false).2 =
        purgeApply db sym otd now := by
      unfold purge_superseded_plans
      rw [if_neg (by simp [hm])]
    rw [hres]
    have hidrem : i.instance_id ∈ purgeRemovedIds db sym otd now := by
      unfold purgeRemovedIds
      exact List.mem_map_of_mem _ himem
    refine ⟨?_, ?_, ?_⟩
    · intro hmem
      unfold purgeApply at hmem
      simp only [List.mem_filter, decide_eq_true_eq] at hmem
      exact hmem.2 hmatch
    · intro r _ hrinst hmem
      unfold purgeApply at hmem
      simp only [List.mem_filter, decide_eq_true_eq] at hmem
      exact hmem.2 (hrinst ▸ hidrem)
    · intro a _ hainst hmem
      unfold purgeApply at hmem
      simp only [List.mem_filter, decide_eq_true_eq] at hmem
      exact hmem.2.1 (hainst ▸ hidrem)
  · intro i hi hact
    by_cases hm : (db.instances.filter (purgeMatch sym otd now)).length = 0
    · have hres : (purge_superseded_plans db sym otd now false).2 = db := by
        unfold purge_superseded_plans
        rw [if_pos (Or.inr hm)]
      rw [hres]
      exact ⟨hi, fun r hr _ => hr, fun a ha _ => ha⟩
    · have hres : (purge_superseded_plans db sym otd now false).2 =
          purgeApply db sym otd now := by
        unfold purge_superseded_plans
        rw [if_neg (by simp [hm])]
      rw [hres]
      have hnotrem := active_not_removed db sym otd now hndi i hi hact
      refine ⟨?_, ?_, ?_⟩
      · unfold purgeApply
        simp only [List.mem_filter, decide_eq_true_eq]
        refine ⟨hi, ?_⟩
        intro hmatch
        have hst := purgeMatch_status sym otd now i hmatch
        rw [hact] at hst
        exact absurd hst (by simp)
      · intro r hr hrinst
        unfold purgeApply
        simp only [List.mem_filter, decide_eq_true_eq]
        exact ⟨hr, hrinst ▸ hnotrem⟩
      · intro a ha hainst
        unfold purgeApply
        simp only [List.mem_filter, decide_eq_true_eq]
        refine ⟨ha, hainst ▸ hnotrem, ?_⟩
        intro hrungrem
        unfold purgeRemovedRungIds at hrungrem
        rw [List.mem_map] at hrungrem
        obtain ⟨r2, hr2, hr2id⟩ := hrungrem
        rw [List.mem_filter] at hr2
        have hainst2 := hcons a ha r2 hr2.1 hr2id.symm
        have : a.instance_id ∈ purgeRemovedIds db sym otd now := by
          rw [hainst2]
          simpa using hr2.2
        rw [hainst] at this
        exact hnotrem this
  · intro i hi hnm
    by_cases hm : (db.instances.filter (purgeMatch sym otd now)).length = 0
    · have hres : (purge_superseded_plans db sym otd now false).2 = db := by
        unfold purge_superseded_plans
        rw [if_pos (Or.inr hm)]
      rw [hres]
      exact ⟨hi, fun r hr _ => hr, fun a ha _ => ha⟩
    · have hres : (purge_superseded_plans db sym otd now false).2 =
          purgeApply db sym otd now := by
        unfold purge_superseded_plans
        rw [if_neg (by simp [hm])]
      rw [hres]
      have hnotrem := unmatched_not_removed db sym otd now hndi i hi hnm
      refine ⟨?_, ?_, ?_⟩
      · unfold purgeApply
        simp only [List.mem_filter, decide_eq_true_eq]
        exact ⟨hi, by simp [hnm]⟩
      · intro r hr hrinst
        unfold purgeApply
        simp only [List.mem_filter, decide_eq_true_eq]
        exact ⟨hr, hrinst ▸ hnotrem⟩
      · intro a ha hainst
        unfold purgeApply
        simp only [List.mem_filter, decide_eq_true_eq]
        refine ⟨ha, hainst ▸ hnotrem, ?_⟩
        intro hrungrem
        unfold purgeRemovedRungIds at hrungrem
        rw [List.mem_map] at hrungrem
        obtain ⟨r2, hr2, hr2id⟩ := hrungrem
        rw [List.mem_filter] at hr2
        have hainst2 := hcons a ha r2 hr2.1 hr2id.symm
        have : a.instance_id ∈ purgeRemovedIds db sym otd now := by
          rw [hainst2]
          simpa using hr2.2
        rw [hainst] at this
        exact hnotrem this
  · by_cases hm : (db.instances.filter (purgeMatch sym otd now)).length = 0
    · have hres : (purge_superseded_plans db sym otd now false).2 = db := by
        unfold purge_superseded_plans
        rw [if_pos (Or.inr hm)]
      rw [hres]
      exact ⟨fun i hi => hi, fun r hr => hr, fun a ha => ha⟩
    · have hres : (purge_superseded_plans db sym otd now false).2 =
          purgeApply db sym otd now := by
        unfold purge_superseded_plans
        rw [if_neg (by simp [hm])]
      rw [hres]
      refine ⟨?_, ?_, ?_⟩
      · intro i hi
        unfold purgeApply at hi
        rw [List.mem_filter] at hi
        exact hi.1
      · intro r hr
        unfold purgeApply at hr
        rw [List.mem_filter] at hr
        exact hr.1
      · intro a ha
        unfold purgeApply at ha
        rw [List.mem_filter] at ha
        exact ha.1

theorem C5_purge_superseded_witness :
    ((dbTwo.instances.map PlanInstanceRow.instance_id).Nodup ∧
      (∀ a ∈ dbTwo.alerts, ∀ r ∈ dbTwo.rungs, a.rung_id = r.rung_id →
        a.instance_id = r.instance_id) ∧
      instSup ∈ dbTwo.instances ∧ purgeMatch none none 0 instSup = true ∧
      instOne ∈ dbTwo.instances ∧ instOne.status = InstStatus.ACTIVE ∧
      purgeMatch (some 2) none 0 instSup = false) ∧
    ((purge_superseded_plans dbTwo none none 0 true).2 = dbTwo ∧
      instSup ∉ (purge_superseded_plans dbTwo none none 0 false).2.instances ∧
      instOne ∈ (purge_superseded_plans dbTwo none none 0 false).2.instances ∧
      instSup ∈
        (purge_superseded_plans dbTwo (some 2) none 0 false).2.instances ∧
      rungSup ∈
        (purge_superseded_plans dbTwo (some 2) none 0 false).2.rungs ∧
      alertSup ∈
        (purge_superseded_plans dbTwo (some 2) none 0 false).2.alerts) :=
  ⟨⟨by decide, by decide, by simp [dbTwo], by decide,
    by simp [dbTwo], by decide, by decide⟩,
   ⟨(C5_purge_superseded dbTwo none none 0 (by decide) (by decide)).1,
    ((C5_purge_superseded dbTwo none none 0 (by decide) (by decide)).2.2.1
      instSup (by simp [dbTwo]) (by decide)).1,
    ((C5_purge_superseded dbTwo none none 0 (by decide) (by decide)).2.2.2.1
      instOne (by simp [dbTwo]) (by decide)).1,
    ((C5_purge_superseded dbTwo (some 2) none 0 (by decide)
        (by decide)).2.2.2.2.1
      instSup (by simp [dbTwo]) (by decide)).1,
    ((C5_purge_superseded dbTwo (some 2) none 0 (by decide)
        (by decide)).2.2.2.2.1
      instSup (by simp [dbTwo]) (by decide)).2.1 rungSup
      (by simp [dbTwo]) (by decide),
    ((C5_purge_superseded dbTwo (some 2) none 0 (by decide)
        (by decide)).2.2.2.2.1
      instSup (by simp [dbTwo]) (by decide)).2.2 alertSup
      (by simp [dbTwo]) (by decide)⟩⟩

theorem design_some_chooseH (M : MathFns) (prices : List ℚ)
    (Hopt : Option ℚ) (n max_s0 : ℕ) (alpha min_H max_H : ℚ)
    (plan : ForwardPlan)
    (h : design_forward_ladder_from_history M prices Hopt n max_s0
      alpha min_H max_H = some plan) :
    ∃ Hv av, chooseH M prices Hopt alpha min_H max_H = some (Hv, av) := by
  unfold design_forward_ladder_from_history at h
  by_cases h1 : prices.length < 2
  · rw [if_pos h1] at h
    exact absurd h (by simp)
  rw [if_neg h1] at h
  by_cases h2 : prices.headI ≤ 0 ∨ prices.getLastD 0 ≤ 0
  · rw [if_pos h2] at h
    exact absurd h (by simp)
  rw [if_neg h2] at h
  rcases hch : chooseH M prices Hopt alpha min_H max_H with _ | ⟨Hv, av⟩
  · rw [hch] at h
    exact absurd h (by simp)
  · exact ⟨Hv, av, rfl⟩

theorem supersededInstances_ids (db : DB) (sid : ℕ) :
    ∀ x ∈ supersededInstances db sid, ∃ i ∈ db.instances,
      x.instance_id = i.instance_id := by
  intro x hx
  unfold supersededInstances at hx
  rcases hp : pickPrevActive db sid with _ | p
  all_goals rw [hp] at hx
  · exact ⟨x, hx, rfl⟩
  · rw [List.mem_map] at hx
    obtain ⟨i, hi, hix⟩ := hx
    refine ⟨i, hi, ?_⟩
    rw [← hix]
    by_cases hid : i.instance_id = p.instance_id
    · rw [if_pos hid]
    · rw [if_neg hid]

/-- C10: every plan instance persisted by `build_plan` has
`v0_floor = shares_initial * (last adjusted close of the stored window)`
— the series the ladder was computed from — while `price_asof` is the
window's last unadjusted close; hence when the two closes differ,
`v0_floor ≠ shares_initial * price_asof`. -/
theorem C10_v0_floor_adjusted (M : MathFns) (db : DB) (sid : ℕ)
    (window : List BarRow) (n max_s0 : ℕ) (alpha min_H max_H : ℚ)
    (now : ℤ) (db' : DB) (iid : ℕ)
    (hfresh : ∀ i ∈ db.instances, i.instance_id < db.next_instance_id)
    (hbp : build_plan M db sid window n max_s0 alpha min_H max_H now =
      some (db', iid)) :
    ∀ row ∈ db'.instances, row.instance_id = iid →
      row.v0_floor = (row.shares_initial : ℚ) *
        ((window.map BarRow.adj_close).getLastD 0) ∧
      row.price_asof = (window.map BarRow.close).getLastD 0 ∧
      1 ≤ row.shares_initial ∧
      ((window.map BarRow.adj_close).getLastD 0 ≠
          (window.map BarRow.close).getLastD 0 →
        row.v0_floor ≠ (row.shares_initial : ℚ) * row.price_asof) := by
  obtain ⟨plan, hdesign, hdb', hiid⟩ :=
    build_plan_some_inv M db sid window n max_s0 alpha min_H max_H now
      db' iid hbp
  obtain ⟨Hv, av, hch⟩ :=
    design_some_chooseH M (window.map BarRow.adj_close) none n max_s0
      alpha min_H max_H plan hdesign
  obtain ⟨s0n, hfs, hplan⟩ :=
    design_some_inv M (window.map BarRow.adj_close) none n max_s0 alpha
      min_H max_H plan Hv av hch hdesign
  have hs0pos : 1 ≤ s0n := by
    have hmem := List.mem_of_find?_eq_some hfs
    rw [List.mem_range'_1] at hmem
    exact hmem.1
  intro row hrow hrowid
  have hinsts : db'.instances =
      supersededInstances db sid ++
        [newPlanRow db sid plan ((window.map BarRow.close).getLastD 0)
          now] := by
    rw [hdb', insertPlanInstance_eq, ensure_preserves_instances]
    rfl
  rw [hinsts] at hrow
  rcases List.mem_append.mp hrow with hold | hnew
  · exfalso
    obtain ⟨i, hi, hxi⟩ := supersededInstances_ids db sid row hold
    have := hfresh i hi
    rw [← hxi, hrowid, hiid] at this
    omega
  · rw [List.mem_singleton] at hnew
    subst hnew
    have hV0 : plan.V0 = (s0n : ℚ) *
        ((window.map BarRow.adj_close).getLastD 0) := by
      rw [hplan]
      rfl
    have hs0 : plan.s0 = (s0n : ℤ) := by
      rw [hplan]
      rfl
    have hshares : (newPlanRow db sid plan
        ((window.map BarRow.close).getLastD 0) now).shares_initial =
        (s0n : ℤ) := hs0
    have hcast : (((s0n : ℤ) : ℚ)) = (s0n : ℚ) := by push_cast; rfl
    refine ⟨?_, rfl, ?_, ?_⟩
    · show plan.V0 = ((plan.s0 : ℚ)) * _
      rw [hV0, hs0, hcast]
    · rw [hshares]
      exact_mod_cast hs0pos
    · intro hne heq
      apply hne
      have hsne : ((plan.s0 : ℚ)) ≠ 0 := by
        rw [hs0, hcast]
        have : (0 : ℚ) < (s0n : ℚ) := by exact_mod_cast hs0pos
        exact ne_of_gt this
      have heq2 : (plan.s0 : ℚ) *
          ((window.map BarRow.adj_close).getLastD 0) =
          (plan.s0 : ℚ) * ((window.map BarRow.close).getLastD 0) := by
        calc (plan.s0 : ℚ) * ((window.map BarRow.adj_close).getLastD 0)
            = plan.V0 := by rw [hV0, hs0, hcast]
          _ = (plan.s0 : ℚ) * ((window.map BarRow.close).getLastD 0) := heq
      exact mul_left_cancel₀ hsne heq2

theorem build_plan_dbBuilt :
    build_plan idOracle ⟨[], [], [], 1, 1, 1⟩ 1
      [⟨1, 1⟩, ⟨2, 2⟩, ⟨4, 5⟩] 1 2 (1/2) 1 2 0 = some (dbBuilt, 1) := by
  norm_num [build_plan, design_forward_ladder_from_history, chooseH,
    suggest_H_from_vol, compute_historical_volatility, logReturns,
    pricePairs, sampleVar, findFeasibleS0, compute_price_targets,
    computeTargetsAux, mkForwardPlan, inferRDaily, enrichLadder,
    insertPlanInstance, insertPlanBase, supersededInstances, newPlanRow,
    pickPrevActive, rungRowsOfLadder, ensure_next_rung_alert,
    getNextPendingRung, instanceActive, minByRungIndex, upsertAlertForRung,
    disableOtherAlerts, idOracle, dbBuilt, builtInst, builtRung,
    builtAlert, ceil_as_floor, List.filterMap_cons, List.range']

theorem C10_v0_floor_adjusted_witness :
    ((∀ i ∈ (⟨[], [], [], 1, 1, 1⟩ : DB).instances,
        i.instance_id < (⟨[], [], [], 1, 1, 1⟩ : DB).next_instance_id) ∧
      build_plan idOracle ⟨[], [], [], 1, 1, 1⟩ 1
        [⟨1, 1⟩, ⟨2, 2⟩, ⟨4, 5⟩] 1 2 (1/2) 1 2 0 = some (dbBuilt, 1)) ∧
    (∀ row ∈ dbBuilt.instances, row.instance_id = 1 →
      row.v0_floor = (row.shares_initial : ℚ) *
        ((([⟨1, 1⟩, ⟨2, 2⟩, ⟨4, 5⟩] : List BarRow).map
          BarRow.adj_close).getLastD 0) ∧
      row.price_asof = (([⟨1, 1⟩, ⟨2, 2⟩, ⟨4, 5⟩] : List BarRow).map
        BarRow.close).getLastD 0 ∧
      1 ≤ row.shares_initial ∧
      ((([⟨1, 1⟩, ⟨2, 2⟩, ⟨4, 5⟩] : List BarRow).map
          BarRow.adj_close).getLastD 0 ≠
        (([⟨1, 1⟩, ⟨2, 2⟩, ⟨4, 5⟩] : List BarRow).map
          BarRow.close).getLastD 0 →
        row.v0_floor ≠ (row.shares_initial : ℚ) * row.price_asof)) :=
  ⟨⟨by simp, build_plan_dbBuilt⟩,
   C10_v0_floor_adjusted idOracle ⟨[], [], [], 1, 1, 1⟩ 1
    [⟨1, 1⟩, ⟨2, 2⟩, ⟨4, 5⟩] 1 2 (1/2) 1 2 0 dbBuilt 1 (by simp)
    build_plan_dbBuilt⟩

end Harvester
